import Mathlib

/-!
Verification of the microchat.ai server core against its specification.

The Go source is embedded shallowly:
* strings are `String` (byte lengths via `String.utf8ByteSize`, matching Go's
  `len` on strings) or `List Char` where Go iterates over runes;
* `time.Time` instants are modelled as `Int` (comparisons and monotonicity are
  all the code uses); formatted calendar days are modelled as `Nat` codes
  (Go compares `YYYY-MM-DD` strings only for equality, and the formatting is
  injective on days);
* Go maps/sets are association lists / lists with a no-duplicate invariant;
* fallible functions return the mutated state together with an error Option,
  because the Go code mutates state before some failure returns.
-/

namespace Microchat

/-! ### Generic association-list operations (Go map semantics) -/

/-- Lookup in an association list, first match (Go map indexing). -/
def alookup {α : Type} : List (String × α) → String → Option α
  | [], _ => none
  | (k, v) :: rest, id => if k = id then some v else alookup rest id

/-- Update-or-append (Go map assignment `m[k] = v`). -/
def aupsert {α : Type} : List (String × α) → String → α → List (String × α)
  | [], id, v => [(id, v)]
  | (k, w) :: rest, id, v =>
    if k = id then (k, v) :: rest else (k, w) :: aupsert rest id v

/-- Remove the entry for a key (Go `delete(m, k)`; keys are unique). -/
def aerase {α : Type} : List (String × α) → String → List (String × α)
  | [], _ => []
  | (k, v) :: rest, id => if k = id then rest else (k, v) :: aerase rest id

/-! ### The terminal sanitiser (`sanitizeForTerminal` in the chat handlers)

Go first deletes every match of the regular expression
`\x1b\[[0-9;]*[a-zA-Z]` (`regexp.ReplaceAllString` with the empty string),
then iterates over the remaining runes keeping `r >= 32 || r == '\n' ||
r == '\t' || r == '\r'`.  All characters of the pattern are ASCII, so
matching the UTF-8 bytes and matching the runes coincide; we model the text
as its list of runes. -/

/-- Characters matched by the regex class `[0-9;]`. -/
def isAnsiBody (c : Char) : Bool := (decide ('0' ≤ c) && decide (c ≤ '9')) || c == ';'

/-- Characters matched by the regex class `[a-zA-Z]`. -/
def isAnsiFinal (c : Char) : Bool :=
  (decide ('a' ≤ c) && decide (c ≤ 'z')) || (decide ('A' ≤ c) && decide (c ≤ 'Z'))

/-- After `\x1b[`, consume `[0-9;]*` then one `[a-zA-Z]`; return the rest of
the input after the match, or `none` when the regex cannot match here.
Because `[0-9;]` and `[a-zA-Z]` are disjoint, the greedy run is the only
candidate, so this scan is exactly the regex engine's behaviour. -/
def matchAnsiBody : List Char → Option (List Char)
  | [] => none
  | c :: rest =>
    if isAnsiBody c then matchAnsiBody rest
    else if isAnsiFinal c then some rest
    else none

/-- Try to match `\x1b\[[0-9;]*[a-zA-Z]` at the head of the input. -/
def matchAnsi (l : List Char) : Option (List Char) :=
  match l with
  | c1 :: c2 :: rest =>
    if c1 = '\x1b' then if c2 = '[' then matchAnsiBody rest else none else none
  | _ => none

/-- `regexp.ReplaceAllString(text, "")` for the ANSI pattern, with explicit
fuel: scan left to right, delete each leftmost match, resume after it.  Each
match consumes at least one character, so fuel `l.length` always suffices
(the fuel-exhausted branch is unreachable from `stripAnsi`). -/
def stripAnsiFuel : Nat → List Char → List Char
  | 0, l => l
  | _ + 1, [] => []
  | n + 1, c :: rest =>
    match matchAnsi (c :: rest) with
    | some rest2 => stripAnsiFuel n rest2
    | none => c :: stripAnsiFuel n rest

/-- Delete every match of `\x1b\[[0-9;]*[a-zA-Z]` from the rune list. -/
def stripAnsi (l : List Char) : List Char := stripAnsiFuel l.length l

/-- The rune filter of `sanitizeForTerminal`: Go keeps
`r >= 32 || r == '\n' || r == '\t' || r == '\r'`. -/
def keepChar (c : Char) : Bool :=
  decide (32 ≤ c.toNat) || c == '\n' || c == '\t' || c == '\r'

/-- `sanitizeForTerminal`: strip ANSI escape sequences, then drop the
remaining control characters the filter rejects. -/
def sanitizeForTerminal (l : List Char) : List Char :=
  (stripAnsi l).filter keepChar

/-! ### Session store (cmd/server/session_store.go, Layer 3)

The store is `sessions map[string]*Session` plus the valid-id set
`validSessions map[string]bool`, the LRU list `sessionOrder []string` and the
configured limits.  `time.Time` is modelled as `Int`; `time.Now().UTC()`
values are passed in as explicit `now` arguments. -/

inductive Role where
  | user
  | assistant
  | system
deriving DecidableEq, Repr

/-- `Role.String()`; the `default: "unknown"` arm is unreachable for the three
constants the server constructs. -/
def roleString : Role → String
  | .user => "user"
  | .assistant => "assistant"
  | .system => "system"

structure Message where
  role : Role
  text : String
  timestamp : Int
deriving DecidableEq, Repr

structure Session where
  messages : List Message
  lastActive : Int
deriving DecidableEq, Repr

structure SessionStore where
  sessions : List (String × Session)
  validSessions : List String
  idleTimeout : Int
  maxSessions : Nat
  maxMessagesPerSession : Nat
  maxSessionSizeBytes : Nat
  sessionOrder : List String
  totalSessionsCreated : Nat
deriving DecidableEq, Repr

/-- `NewSessionStore`. -/
def newSessionStore (idleTimeout : Int)
    (maxSessions maxMessagesPerSession maxSessionSizeBytes : Nat) : SessionStore :=
  { sessions := []
    validSessions := []
    idleTimeout := idleTimeout
    maxSessions := maxSessions
    maxMessagesPerSession := maxMessagesPerSession
    maxSessionSizeBytes := maxSessionSizeBytes
    sessionOrder := []
    totalSessionsCreated := 0 }

/-- `RegisterSession`: mark the id valid, bump the lifetime counter. -/
def registerSession (σ : SessionStore) (sessionID : String) : SessionStore :=
  { σ with
    validSessions :=
      if sessionID ∈ σ.validSessions then σ.validSessions
      else σ.validSessions ++ [sessionID]
    totalSessionsCreated := σ.totalSessionsCreated + 1 }

/-- `IsValidSession`. -/
def isValidSession (σ : SessionStore) (sessionID : String) : Bool :=
  decide (sessionID ∈ σ.validSessions)

/-- `getSessionSize`: text bytes + role-string bytes + 24 per message. -/
def messageSize (m : Message) : Nat :=
  m.text.utf8ByteSize + (roleString m.role).utf8ByteSize + 24

def getSessionSize (s : Session) : Nat :=
  (s.messages.map messageSize).sum

/-- `evictOldestSession`: drop the head of the LRU list from the order, the
session map and the valid set; no-op on an empty order list. -/
def evictOldestSession (σ : SessionStore) : SessionStore :=
  match σ.sessionOrder with
  | [] => σ
  | oldest :: rest =>
    { σ with
      sessionOrder := rest
      sessions := aerase σ.sessions oldest
      validSessions := σ.validSessions.erase oldest }

/-- The `for len(s.sessions) >= s.maxSessions { s.evictOldestSession() }` loop
of `AppendMessage`, with fuel.  Each productive iteration shortens the order
list, so fuel `sessionOrder.length` suffices whenever `maxSessions ≥ 1`
(the configuration loader rejects `MAX_SESSIONS ≤ 0`). -/
def evictLoop : Nat → SessionStore → SessionStore
  | 0, σ => σ
  | fuel + 1, σ =>
    if σ.maxSessions ≤ σ.sessions.length then evictLoop fuel (evictOldestSession σ)
    else σ

/-- `updateSessionOrder`: remove the first occurrence, append at the tail. -/
def updateSessionOrder (order : List String) (sessionID : String) : List String :=
  order.erase sessionID ++ [sessionID]

inductive AppendError where
  | invalidSession
  | messageLimit
  | sizeLimit
deriving DecidableEq, Repr

/-- The second half of `AppendMessage`, after the session struct exists:
message-count check, size check, then append + `LastActive = now` + LRU move.
`session` is the struct the Go code just read from the map. -/
def appendChecked (σ : SessionStore) (session : Session) (now : Int)
    (sessionID : String) (role : Role) (text : String) :
    SessionStore × Option AppendError :=
  if σ.maxMessagesPerSession ≤ session.messages.length then
    (σ, some .messageLimit)
  else if σ.maxSessionSizeBytes <
      getSessionSize session + text.utf8ByteSize + (roleString role).utf8ByteSize + 24 then
    (σ, some .sizeLimit)
  else
    ({ σ with
        sessions := aupsert σ.sessions sessionID
          { messages := session.messages ++ [{ role := role, text := text, timestamp := now }]
            lastActive := now }
        sessionOrder := updateSessionOrder σ.sessionOrder sessionID }, none)

/-- `AppendMessage`.  The pair carries the (possibly mutated) store together
with the error: Go materialises a missing session — evicting under capacity
pressure — before the limit checks can fail. -/
def appendMessage (σ : SessionStore) (now : Int) (sessionID : String)
    (role : Role) (text : String) : SessionStore × Option AppendError :=
  if sessionID ∈ σ.validSessions then
    match alookup σ.sessions sessionID with
    | some session => appendChecked σ session now sessionID role text
    | none =>
      let σe := evictLoop σ.sessionOrder.length σ
      let σ1 := { σe with
        sessions := aupsert σe.sessions sessionID { messages := [], lastActive := now }
        sessionOrder := σe.sessionOrder ++ [sessionID] }
      appendChecked σ1 { messages := [], lastActive := now } now sessionID role text
  else (σ, some .invalidSession)

/-- `GetMessages` (the defensive copy is identity here). -/
def getMessages (σ : SessionStore) (sessionID : String) : List Message :=
  match alookup σ.sessions sessionID with
  | some s => s.messages
  | none => []

structure LLMMessage where
  role : String
  text : String
deriving DecidableEq, Repr

/-- `GetMessagesAsLLMFormat`. -/
def getMessagesAsLLMFormat (σ : SessionStore) (sessionID : String) : List LLMMessage :=
  (getMessages σ sessionID).map (fun m => { role := roleString m.role, text := m.text })

/-- `GetFormattedMessages`; the per-message timestamp rendering delegates to
Go's `time` package, abstracted as the `fmt` argument (only the list length
matters to the claims). -/
def getFormattedMessages (fmt : Message → String) (σ : SessionStore)
    (sessionID : String) : List String :=
  (getMessages σ sessionID).map fmt

/-- `GetSessionCount`. -/
def getSessionCount (σ : SessionStore) : Nat := σ.sessions.length

/-- The `session.LastActive.Before(cutoff)` test of `CleanupIdleSessions`. -/
def cleanupDrop (cutoff : Int) : String × Session → Bool :=
  fun p => decide (p.2.lastActive < cutoff)

/-- Negation of `cleanupDrop`: the sessions that survive the sweep. -/
def cleanupKeep (cutoff : Int) : String × Session → Bool :=
  fun p => !decide (p.2.lastActive < cutoff)

/-- `CleanupIdleSessions`: collect every session with
`LastActive.Before(now - idleTimeout)`, then delete each from the map, the
valid set and the order list. -/
def cleanupIdleSessions (σ : SessionStore) (now : Int) : SessionStore :=
  let cutoff := now - σ.idleTimeout
  let toDelete := (σ.sessions.filter (cleanupDrop cutoff)).map Prod.fst
  { σ with
    sessions := σ.sessions.filter (cleanupKeep cutoff)
    validSessions := σ.validSessions.filter (fun id => !decide (id ∈ toDelete))
    sessionOrder := toDelete.foldl (fun ord id => ord.erase id) σ.sessionOrder }

/-! ### Store invariant

Everything the server maintains between operations: the three containers are
duplicate-free, a session id is stored iff it is in the LRU order, stored ids
are valid, capacity and per-session caps hold, timestamps never exceed the
current clock, and the LRU order is sorted by `last_active`.  `maxPos` and
`msgMaxPos` come from the configuration loader, which rejects non-positive
`MAX_SESSIONS` and `MAX_MESSAGES_PER_SESSION`. -/

/-- The `last_active` of a stored session (0 for absent ids; only used on
stored ids). -/
def activeOf (σ : SessionStore) (id : String) : Int :=
  match alookup σ.sessions id with
  | some s => s.lastActive
  | none => 0

structure Inv (σ : SessionStore) (now : Int) : Prop where
  keysNodup : (σ.sessions.map Prod.fst).Nodup
  orderNodup : σ.sessionOrder.Nodup
  validNodup : σ.validSessions.Nodup
  memIff : ∀ id : String, id ∈ σ.sessions.map Prod.fst ↔ id ∈ σ.sessionOrder
  orderValid : ∀ id ∈ σ.sessionOrder, id ∈ σ.validSessions
  maxPos : 1 ≤ σ.maxSessions
  msgMaxPos : 1 ≤ σ.maxMessagesPerSession
  sizeBound : σ.sessions.length ≤ σ.maxSessions
  msgBound : ∀ p ∈ σ.sessions, (Prod.snd p).messages.length ≤ σ.maxMessagesPerSession
  activeLe : ∀ p ∈ σ.sessions, (Prod.snd p).lastActive ≤ now
  sorted : σ.sessionOrder.Pairwise (fun a b => activeOf σ a ≤ activeOf σ b)

/-- Reachable states of the store: a fresh store followed by any sequence of
`RegisterSession` (`StartSession`), `AppendMessage` and `CleanupIdleSessions`
calls under a monotone wall clock; the readers do not mutate.  The positivity
side conditions mirror the configuration loader, which rejects non-positive
`MAX_SESSIONS` and `MAX_MESSAGES_PER_SESSION`. -/
inductive Reachable : SessionStore → Int → Prop where
  | init (idleTimeout : Int) (maxS maxM maxB : Nat) (t : Int)
      (hS : 1 ≤ maxS) (hM : 1 ≤ maxM) :
      Reachable (newSessionStore idleTimeout maxS maxM maxB) t
  | register {σ : SessionStore} {t : Int} (h : Reachable σ t) (id : String) :
      Reachable (registerSession σ id) t
  | append {σ : SessionStore} {t : Int} (h : Reachable σ t) {t2 : Int}
      (ht : t ≤ t2) (id : String) (role : Role) (text : String) :
      Reachable (appendMessage σ t2 id role text).1 t2
  | cleanup {σ : SessionStore} {t : Int} (h : Reachable σ t) {t2 : Int}
      (ht : t ≤ t2) : Reachable (cleanupIdleSessions σ t2) t2

/-! ### Operation traces over the store -/

inductive StoreOp where
  | register (id : String)
  | append (now : Int) (id : String) (role : Role) (text : String)
  | cleanup (now : Int)
deriving DecidableEq, Repr

def runOp (σ : SessionStore) : StoreOp → SessionStore
  | .register id => registerSession σ id
  | .append now id role text => (appendMessage σ now id role text).1
  | .cleanup now => cleanupIdleSessions σ now

def runOps (σ : SessionStore) (ops : List StoreOp) : SessionStore :=
  ops.foldl runOp σ

/-- Whether an operation is an `AppendMessage` call aimed at `id`. -/
def appendsTo : StoreOp → String → Bool
  | .append _ i _ _, id => i == id
  | _, _ => false

/-! ### Quota tracker (`SpendingTracker` in cmd/server/main.go)

`keyUsage.date` holds `time.Now().Format("2006-01-02")` — the calendar day in
the server's LOCAL time zone; this code does not call `.UTC()`.  The
formatted day strings are compared only for equality and the formatting is
injective on days, so days are modelled as `Nat` codes.  A `Clock` carries
both the local-zone day and the UTC day of the same instant, so that the
specification's reading ("today" is the UTC calendar day) can be stated next
to the code's. -/

structure KeyUsage where
  date : Nat
  calls : Nat
deriving DecidableEq, Repr

structure SpendingTracker where
  usage : List (String × KeyUsage)
  limit : Nat
deriving DecidableEq, Repr

structure Clock where
  localDate : Nat
  utcDate : Nat
deriving DecidableEq, Repr

/-- `NewSpendingTracker`. -/
def newSpendingTracker (dailyLimit : Nat) : SpendingTracker :=
  { usage := [], limit := dailyLimit }

/-- `CanMakeCall`: Go computes `today := time.Now().Format("2006-01-02")`,
the server-local day. -/
def canMakeCall (clock : Clock) (st : SpendingTracker) (apiKey : String) : Bool :=
  match alookup st.usage apiKey with
  | none => true
  | some u => if u.date ≠ clock.localDate then true else decide (u.calls < st.limit)

/-- `RecordCall`, also keyed on the server-local day. -/
def recordCall (clock : Clock) (st : SpendingTracker) (apiKey : String) :
    SpendingTracker :=
  match alookup st.usage apiKey with
  | none =>
    { st with usage := aupsert st.usage apiKey { date := clock.localDate, calls := 1 } }
  | some u =>
    if u.date ≠ clock.localDate then
      { st with usage := aupsert st.usage apiKey { date := clock.localDate, calls := 1 } }
    else
      { st with usage := aupsert st.usage apiKey { date := u.date, calls := u.calls + 1 } }

/-- Modelled from the spec: `CanMakeCall` as §4.2 of the specification words
it, with "today" the UTC calendar day.  The implementation in `main.go` uses
the server-local day instead; this definition exists only to compare the
spec's reading with the code's. -/
def canMakeCallSpecUTC (clock : Clock) (st : SpendingTracker) (apiKey : String) : Bool :=
  match alookup st.usage apiKey with
  | none => true
  | some u => if u.date ≠ clock.utcDate then true else decide (u.calls < st.limit)

/-- The calls recorded for `apiKey` on day `d` (0 when the entry is absent or
for another day). -/
def callsOn (st : SpendingTracker) (apiKey : String) (d : Nat) : Nat :=
  match alookup st.usage apiKey with
  | some u => if u.date = d then u.calls else 0
  | none => 0

/-! ### Admission pipeline (`AuthInterceptor` in the interceptor file) -/

inductive StatusCode where
  | ok
  | canceled
  | invalidArgument
  | deadlineExceeded
  | notFound
  | resourceExhausted
  | permissionDenied
  | unauthenticated
  | internal
  | unavailable
deriving DecidableEq, Repr

def startsWithChars : List Char → List Char → Bool
  | [], _ => true
  | _ :: _, [] => false
  | p :: ps, c :: cs => p == c && startsWithChars ps cs

/-- `strings.HasPrefix(token, "Bearer ")`. -/
def bearerPrefixed (s : String) : Bool := startsWithChars "Bearer ".toList s.toList

/-- `strings.TrimPrefix(token, "Bearer ")` (`"Bearer "` is 7 bytes of ASCII,
7 runes). -/
def trimBearer (s : String) : String :=
  if bearerPrefixed s then String.mk (s.toList.drop 7) else s

structure AuthRequest where
  fullMethod : String
  mdPresent : Bool
  authHeader : List String
  clock : Clock
deriving DecidableEq, Repr

inductive AuthOutcome where
  | handlerNoKey
  | handler (apiKey userRole : String)
  | reject (code : StatusCode)
deriving DecidableEq, Repr

def AuthOutcome.isHandlerFor : AuthOutcome → String → Bool
  | .handler k _, key => k == key
  | _, _ => false

/-- `AuthInterceptor`'s closure: the admission chain.  Quota is recorded
before the handler runs; the returned tracker is the state as of handler
entry, so the handler's own success or failure cannot influence it. -/
def authInterceptor (apiKeys : List (String × String)) (st : SpendingTracker)
    (req : AuthRequest) : SpendingTracker × AuthOutcome :=
  if req.fullMethod = "/chat.ChatService/Health" then (st, .handlerNoKey)
  else if apiKeys.length = 0 then (st, .reject .unauthenticated)
  else if !req.mdPresent then (st, .reject .unauthenticated)
  else
    match req.authHeader with
    | [] => (st, .reject .unauthenticated)
    | token :: _ =>
      if !bearerPrefixed token then (st, .reject .unauthenticated)
      else
        match alookup apiKeys (trimBearer token) with
        | none => (st, .reject .unauthenticated)
        | some userRole =>
          if req.fullMethod = "/chat.ChatService/GetMetrics" ∧ userRole ≠ "admin" then
            (st, .reject .permissionDenied)
          else if !canMakeCall req.clock st (trimBearer token) then
            (st, .reject .resourceExhausted)
          else (recordCall req.clock st (trimBearer token),
            .handler (trimBearer token) userRole)

/-- Admits for `apiKey` on day `d` along a request trace processed
sequentially from `st`. -/
def countAdmits (apiKeys : List (String × String)) (apiKey : String) (d : Nat) :
    SpendingTracker → List AuthRequest → Nat
  | _, [] => 0
  | st, r :: rest =>
    (if (authInterceptor apiKeys st r).2.isHandlerFor apiKey
        && (r.clock.localDate == d) then 1 else 0) +
      countAdmits apiKeys apiKey d (authInterceptor apiKeys st r).1 rest

/-- All recorded daily counts stay within the configured limit. -/
def TrackerBound (st : SpendingTracker) : Prop :=
  ∀ p ∈ st.usage, (Prod.snd p).calls ≤ st.limit

/-! ### LLM provider (`GeminiProvider.GenerateResponse` in cmd/server/llm/gemini.go) -/

/-- A Go `error` value as the retry loop classifies it: either something
`status.FromError` recognises (a gRPC status error) or any other error,
rendered by `%v` as its message. -/
inductive GoErr where
  | statusErr (code : StatusCode) (msg : String)
  | plain (msg : String)
deriving DecidableEq, Repr

def codeString : StatusCode → String
  | .ok => "OK"
  | .canceled => "Canceled"
  | .invalidArgument => "InvalidArgument"
  | .deadlineExceeded => "DeadlineExceeded"
  | .notFound => "NotFound"
  | .resourceExhausted => "ResourceExhausted"
  | .permissionDenied => "PermissionDenied"
  | .unauthenticated => "Unauthenticated"
  | .internal => "Internal"
  | .unavailable => "Unavailable"

/-- `%v` of an error: a gRPC status error renders as
`rpc error: code = <Code> desc = <msg>`. -/
def errString : GoErr → String
  | .statusErr c m => "rpc error: code = " ++ codeString c ++ " desc = " ++ m
  | .plain m => m

deriving instance DecidableEq for Except

/-- What the world does on one try of the retry loop: whether the caller's
context is already cancelled before the try, the API call's outcome, whether
the per-try 30-second context expired, and whether the caller cancelled
during the try. -/
structure AttemptEnv where
  canceledBefore : Bool
  result : Except GoErr String
  timedOut : Bool
  canceledAfter : Bool
deriving DecidableEq, Repr

/-- The `for attempt := 0; attempt < 3; attempt++` loop of
`GenerateResponse`, one `AttemptEnv` per try (Go always runs exactly three);
the second argument is the remembered `lastErr`.  After the loop,
`status.FromError` passes a remembered status error through and wraps
anything else as `unavailable`; `status.FromError(nil)` reports ok, so a
`none` lastErr would return success (unreachable after three tries). -/
def genLoop : List AttemptEnv → Option GoErr → Except GoErr String
  | [], lastErr =>
    match lastErr with
    | none => .ok ""
    | some (.statusErr c m) => .error (.statusErr c m)
    | some (.plain m) =>
      .error (.statusErr .unavailable ("Gemini API failed after 3 attempts: " ++ m))
  | env :: rest, _ =>
    if env.canceledBefore then .error (.statusErr .canceled "request cancelled")
    else
      match env.result with
      | .error e =>
        if env.timedOut then
          genLoop rest (some (.statusErr .deadlineExceeded "Gemini API timeout"))
        else if env.canceledAfter then .error (.statusErr .canceled "request cancelled")
        else genLoop rest (some e)
      | .ok text =>
        if text = "" then genLoop rest (some (.plain "Gemini returned empty response"))
        else .ok text

/-- `GenerateResponse`: reject an empty conversation as invalid-argument,
then run the retry loop (each message yields exactly one text part). -/
def generateResponse (messages : List LLMMessage) (envs : List AttemptEnv) :
    Except GoErr String :=
  if messages.length = 0 then
    .error (.statusErr .invalidArgument "no messages to process")
  else genLoop envs none

/-! ### Chat handler (`application.Chat` in the grpc handlers)

External collaborators are parameters: `uuidParse` stands for `uuid.Parse`
succeeding, `gen` for the chosen provider's `GenerateResponse` on the
accumulated history, `maxResponseSize` for the cap `validateResponse`
resolves from `MAX_RESPONSE_SIZE_KB`, and `t1`/`t2` for the
`time.Now().UTC()` readings of the two `AppendMessage` calls.  Metrics and
logging are omitted (they do not influence results) and error messages that
interpolate external values keep only their stable literal part. -/

structure ChatRequest where
  sessionId : String
  message : String
  messageIndex : Nat
deriving DecidableEq, Repr

structure ChatResponse where
  sessionId : String
  reply : String
  messageCount : Nat
deriving DecidableEq, Repr

inductive ChatResult where
  | ok (resp : ChatResponse)
  | err (code : StatusCode) (msg : String)
deriving DecidableEq, Repr

/-- `uint32` truncation: Go's `uint32(len(...))` and `uint32` addition. -/
def u32 (n : Nat) : Nat := n % 4294967296

def appendErrorMessage (σ : SessionStore) : AppendError → String
  | .invalidSession => "invalid session ID: session not found or not properly created"
  | .messageLimit => "session message limit exceeded: maximum " ++
      toString σ.maxMessagesPerSession ++ " messages per session"
  | .sizeLimit => "session size limit exceeded: maximum " ++
      toString σ.maxSessionSizeBytes ++ " bytes per session"

/-- The sanitiser lifted to `String` (Go ranges over the string's runes). -/
def sanitizeString (s : String) : String := String.mk (sanitizeForTerminal s.data)

/-- `application.Chat`. -/
def chat (uuidParse : String → Bool) (σ : SessionStore) (req : ChatRequest)
    (t1 t2 : Int) (gen : List LLMMessage → Except GoErr String)
    (maxResponseSize : Nat) : SessionStore × ChatResult :=
  if req.sessionId = "" then
    (σ, .err .invalidArgument "session ID cannot be empty")
  else if !uuidParse req.sessionId then
    (σ, .err .invalidArgument "invalid session ID format")
  else if req.message = "" then
    (σ, .err .invalidArgument "message cannot be empty")
  else if 10240 < req.message.utf8ByteSize then
    (σ, .err .invalidArgument "message too large")
  else if !isValidSession σ req.sessionId then
    (σ, .err .notFound "session not found or not properly created")
  else
    let currentCount := u32 (getMessages σ req.sessionId).length
    match appendMessage σ t1 req.sessionId .user req.message with
    | (σ1, some e) =>
      (σ1, .err .resourceExhausted ("failed to store message: " ++ appendErrorMessage σ1 e))
    | (σ1, none) =>
      match gen (getMessagesAsLLMFormat σ1 req.sessionId) with
      | .error e => (σ1, .err .internal ("LLM provider failed: " ++ errString e))
      | .ok reply =>
        if maxResponseSize < reply.utf8ByteSize then
          (σ1, .err .resourceExhausted "response too large")
        else
          let reply2 := sanitizeString reply
          match appendMessage σ1 t2 req.sessionId .assistant reply2 with
          | (σ2, some e) =>
            (σ2, .err .resourceExhausted
              ("failed to store response: " ++ appendErrorMessage σ2 e))
          | (σ2, none) =>
            (σ2, .ok { sessionId := req.sessionId, reply := reply2,
                       messageCount := u32 (currentCount + 2) })

theorem matchAnsiBody_suffix {l r : List Char} (h : matchAnsiBody l = some r) :
    r.IsSuffix l := by
  induction l with
  | nil => simp [matchAnsiBody] at h
  | cons c rest ih =>
    simp only [matchAnsiBody] at h
    by_cases h1 : isAnsiBody c
    · simp [h1] at h
      exact (ih h).trans (List.suffix_cons c rest)
    · by_cases h2 : isAnsiFinal c
      · simp [h1, h2] at h
        exact h ▸ List.suffix_cons c rest
      · simp [h1, h2] at h

theorem matchAnsi_suffix {l r : List Char} (h : matchAnsi l = some r) :
    r.IsSuffix l := by
  match l with
  | [] => simp [matchAnsi] at h
  | [c] => simp [matchAnsi] at h
  | c1 :: c2 :: rest =>
    simp only [matchAnsi] at h
    by_cases h1 : c1 = '\x1b'
    · by_cases h2 : c2 = '['
      · simp [h1, h2] at h
        exact ((matchAnsiBody_suffix h).trans (List.suffix_cons c2 rest)).trans
          (List.suffix_cons c1 (c2 :: rest))
      · simp [h1, h2] at h
    · simp [h1] at h

theorem matchAnsi_none_of_ne {c : Char} (l : List Char) (h : c ≠ '\x1b') :
    matchAnsi (c :: l) = none := by
  match l with
  | [] => rfl
  | c2 :: rest => simp [matchAnsi, h]

theorem stripAnsiFuel_sublist (n : Nat) (l : List Char) :
    (stripAnsiFuel n l).Sublist l := by
  induction n generalizing l with
  | zero => exact List.Sublist.refl l
  | succ n ih =>
    match l with
    | [] => exact List.Sublist.refl []
    | c :: rest =>
      rw [stripAnsiFuel]
      split
      case _ rest2 h =>
        exact (ih rest2).trans (matchAnsi_suffix h).sublist
      case _ h =>
        exact (ih rest).cons₂ c

theorem stripAnsi_sublist (l : List Char) : (stripAnsi l).Sublist l :=
  stripAnsiFuel_sublist l.length l

theorem stripAnsiFuel_of_no_esc (n : Nat) {l : List Char}
    (h : ∀ c ∈ l, c ≠ '\x1b') : stripAnsiFuel n l = l := by
  induction n generalizing l with
  | zero => rfl
  | succ n ih =>
    match l with
    | [] => rfl
    | c :: rest =>
      rw [stripAnsiFuel]
      have hc : matchAnsi (c :: rest) = none :=
        matchAnsi_none_of_ne rest (h c (List.mem_cons_self c rest))
      simp only [hc]
      exact congrArg (c :: ·) (ih fun x hx => h x (List.mem_cons_of_mem c hx))

theorem stripAnsi_of_no_esc {l : List Char} (h : ∀ c ∈ l, c ≠ '\x1b') :
    stripAnsi l = l :=
  stripAnsiFuel_of_no_esc l.length h

theorem keepChar_esc_false : keepChar '\x1b' = false := by decide

theorem mem_sanitize_keep {l : List Char} {c : Char}
    (h : c ∈ sanitizeForTerminal l) : keepChar c = true :=
  (List.mem_filter.mp h).2

theorem sanitize_sublist (l : List Char) : (sanitizeForTerminal l).Sublist l :=
  (List.filter_sublist _).trans (stripAnsi_sublist l)

theorem sanitize_no_esc {l : List Char} {c : Char}
    (h : c ∈ sanitizeForTerminal l) : c ≠ '\x1b' := by
  intro hc
  have := mem_sanitize_keep h
  rw [hc, keepChar_esc_false] at this
  exact Bool.false_ne_true this

theorem sanitize_of_all_kept {l : List Char}
    (hesc : ∀ c ∈ l, c ≠ '\x1b') (hkeep : ∀ c ∈ l, keepChar c = true) :
    sanitizeForTerminal l = l := by
  unfold sanitizeForTerminal
  rw [stripAnsi_of_no_esc hesc]
  exact List.filter_eq_self.mpr hkeep

theorem sanitize_idempotent_aux (l : List Char) :
    sanitizeForTerminal (sanitizeForTerminal l) = sanitizeForTerminal l :=
  sanitize_of_all_kept (fun _ hc => sanitize_no_esc hc)
    (fun _ hc => mem_sanitize_keep hc)

/-! ### Association-list lemmas -/

theorem alookup_eq_none_iff {α : Type} {m : List (String × α)} {k : String} :
    alookup m k = none ↔ k ∉ m.map Prod.fst := by
  induction m with
  | nil => simp [alookup]
  | cons p rest ih =>
    obtain ⟨k0, v0⟩ := p
    by_cases h : k0 = k
    · subst h
      simp [alookup]
    · simp [alookup, h, ih, Ne.symm h]

theorem alookup_isSome_iff {α : Type} {m : List (String × α)} {k : String} :
    (alookup m k).isSome ↔ k ∈ m.map Prod.fst := by
  rcases h : alookup m k with _ | v
  · simp [alookup_eq_none_iff.mp h]
  · simp only [Option.isSome_some, true_iff]
    by_contra hk
    rw [alookup_eq_none_iff.mpr hk] at h
    exact Option.noConfusion h

theorem alookup_mem {α : Type} {m : List (String × α)} {k : String} {v : α}
    (h : alookup m k = some v) : (k, v) ∈ m := by
  induction m with
  | nil => simp [alookup] at h
  | cons p rest ih =>
    obtain ⟨k0, v0⟩ := p
    by_cases hk : k0 = k
    · subst hk
      simp [alookup] at h
      simp [h]
    · simp [alookup, hk] at h
      exact List.mem_cons_of_mem _ (ih h)

theorem alookup_of_mem {α : Type} {m : List (String × α)} {k : String} {v : α}
    (hnd : (m.map Prod.fst).Nodup) (h : (k, v) ∈ m) : alookup m k = some v := by
  induction m with
  | nil => simp at h
  | cons p rest ih =>
    obtain ⟨k0, v0⟩ := p
    simp only [List.map_cons, List.nodup_cons] at hnd
    rcases List.mem_cons.mp h with h1 | h1
    · rw [Prod.mk.injEq] at h1
      simp [alookup, h1.1, h1.2]
    · have hk : k0 ≠ k := by
        intro he
        exact hnd.1 (he ▸ (List.mem_map.mpr ⟨(k, v), h1, rfl⟩))
      simp [alookup, hk]
      exact ih hnd.2 h1

theorem alookup_aupsert_self {α : Type} (m : List (String × α)) (k : String) (v : α) :
    alookup (aupsert m k v) k = some v := by
  induction m with
  | nil => simp [aupsert, alookup]
  | cons p rest ih =>
    obtain ⟨k0, v0⟩ := p
    by_cases h : k0 = k
    · simp [aupsert, h, alookup]
    · simp [aupsert, h, alookup, ih]

theorem alookup_aupsert_ne {α : Type} {m : List (String × α)} {k k' : String}
    (v : α) (h : k' ≠ k) : alookup (aupsert m k v) k' = alookup m k' := by
  induction m with
  | nil => simp [aupsert, alookup, Ne.symm h]
  | cons p rest ih =>
    obtain ⟨k0, v0⟩ := p
    by_cases h0 : k0 = k
    · subst h0
      simp [aupsert, alookup, Ne.symm h]
    · by_cases h1 : k0 = k'
      · subst h1
        simp [aupsert, h0, alookup]
      · simp [aupsert, h0, alookup, h1, ih]

theorem akeys_aupsert_of_mem {α : Type} {m : List (String × α)} {k : String}
    (v : α) (h : k ∈ m.map Prod.fst) :
    (aupsert m k v).map Prod.fst = m.map Prod.fst := by
  induction m with
  | nil => simp at h
  | cons p rest ih =>
    obtain ⟨k0, v0⟩ := p
    by_cases h0 : k0 = k
    · simp [aupsert, h0]
    · simp only [List.map_cons, List.mem_cons] at h
      rcases h with h | h

      · exact absurd h.symm h0
      · simp [aupsert, h0, ih h]

theorem akeys_aupsert_of_not_mem {α : Type} {m : List (String × α)} {k : String}
    (v : α) (h : k ∉ m.map Prod.fst) :
    (aupsert m k v).map Prod.fst = m.map Prod.fst ++ [k] := by
  induction m with
  | nil => simp [aupsert]
  | cons p rest ih =>
    obtain ⟨k0, v0⟩ := p
    simp only [List.map_cons, List.mem_cons] at h
    push_neg at h
    simp [aupsert, Ne.symm h.1, ih h.2]

theorem mem_aupsert {α : Type} {m : List (String × α)} {k : String} {v : α}
    {p : String × α} (h : p ∈ aupsert m k v) : p = (k, v) ∨ p ∈ m := by
  induction m with
  | nil => simpa [aupsert] using h
  | cons q rest ih =>
    obtain ⟨k0, v0⟩ := q
    by_cases h0 : k0 = k
    · subst h0
      rw [show aupsert ((k0, v0) :: rest) k0 v = (k0, v) :: rest by simp [aupsert]] at h
      rcases List.mem_cons.mp h with h1 | h1
      · exact Or.inl h1
      · exact Or.inr (List.mem_cons_of_mem _ h1)
    · rw [show aupsert ((k0, v0) :: rest) k v = (k0, v0) :: aupsert rest k v by
        simp [aupsert, h0]] at h
      rcases List.mem_cons.mp h with h1 | h1
      · exact Or.inr (by rw [h1]; exact List.mem_cons_self _ _)
      · rcases ih h1 with h2 | h2
        · exact Or.inl h2
        · exact Or.inr (List.mem_cons_of_mem _ h2)

theorem akeys_aerase {α : Type} (m : List (String × α)) (k : String) :
    (aerase m k).map Prod.fst = (m.map Prod.fst).erase k := by
  induction m with
  | nil => simp [aerase]
  | cons p rest ih =>
    obtain ⟨k0, v0⟩ := p
    by_cases h : k0 = k
    · subst h
      simp [aerase, List.erase_cons_head]
    · simp [aerase, h, List.erase_cons_tail, ih]

theorem mem_aerase {α : Type} {m : List (String × α)} {k : String}
    {p : String × α} (h : p ∈ aerase m k) : p ∈ m := by
  induction m with
  | nil => simp [aerase] at h
  | cons q rest ih =>
    obtain ⟨k0, v0⟩ := q
    by_cases h0 : k0 = k
    · subst h0
      simp only [aerase, if_pos rfl] at h
      exact List.mem_cons_of_mem _ h
    · simp only [aerase, if_neg h0, List.mem_cons] at h
      rcases h with h | h
      · exact h ▸ List.mem_cons_self _ _
      · exact List.mem_cons_of_mem _ (ih h)

theorem alookup_aerase_self {α : Type} {m : List (String × α)} {k : String}
    (hnd : (m.map Prod.fst).Nodup) : alookup (aerase m k) k = none := by
  rw [alookup_eq_none_iff, akeys_aerase]
  exact fun hmem => ((hnd.mem_erase_iff).mp hmem).1 rfl

theorem alookup_aerase_ne {α : Type} {m : List (String × α)} {k k' : String}
    (h : k' ≠ k) : alookup (aerase m k) k' = alookup m k' := by
  induction m with
  | nil => simp [aerase]
  | cons p rest ih =>
    obtain ⟨k0, v0⟩ := p
    by_cases h0 : k0 = k
    · subst h0
      simp [aerase, alookup, Ne.symm h]
    · simp only [aerase, if_neg h0]
      by_cases h1 : k0 = k'
      · subst h1
        simp [alookup]
      · simp [alookup, h1, ih]

theorem length_aerase_of_mem {α : Type} {m : List (String × α)} {k : String}
    (h : k ∈ m.map Prod.fst) : (aerase m k).length + 1 = m.length := by
  induction m with
  | nil => simp at h
  | cons p rest ih =>
    obtain ⟨k0, v0⟩ := p
    by_cases h0 : k0 = k
    · simp [aerase, h0]
    · simp only [List.map_cons, List.mem_cons] at h
      rcases h with h | h
      · exact absurd h.symm h0
      · simp [aerase, h0, ih h]

theorem length_aupsert_of_mem {α : Type} {m : List (String × α)} {k : String}
    (v : α) (h : k ∈ m.map Prod.fst) : (aupsert m k v).length = m.length := by
  have := akeys_aupsert_of_mem (m := m) v h
  have h2 := congrArg List.length this
  simpa using h2

theorem length_aupsert_of_not_mem {α : Type} {m : List (String × α)} {k : String}
    (v : α) (h : k ∉ m.map Prod.fst) : (aupsert m k v).length = m.length + 1 := by
  have := akeys_aupsert_of_not_mem (m := m) v h
  have h2 := congrArg List.length this
  simpa using h2

theorem alookup_filter {α : Type} {m : List (String × α)} {k : String}
    (p : String × α → Bool) (hnd : (m.map Prod.fst).Nodup) :
    alookup (m.filter p) k =
      match alookup m k with
      | some v => if p (k, v) then some v else none
      | none => none := by
  induction m with
  | nil => simp [alookup]
  | cons q rest ih =>
    obtain ⟨k0, v0⟩ := q
    simp only [List.map_cons, List.nodup_cons] at hnd
    by_cases h0 : k0 = k
    · subst h0
      by_cases hp : p (k0, v0)
      · simp [List.filter_cons, hp, alookup]
      · have hk : k0 ∉ (rest.filter p).map Prod.fst := by
          intro hmem
          exact hnd.1 (List.map_subset Prod.fst (List.filter_subset' rest) hmem)
        simp [List.filter_cons, hp, alookup, alookup_eq_none_iff.mpr hk]
    · by_cases hp : p (k0, v0)
      · simp [List.filter_cons, hp, alookup, h0, ih hnd.2]
      · simp [List.filter_cons, hp, alookup, h0, ih hnd.2]

theorem Inv.lenEq {σ : SessionStore} {now : Int} (h : Inv σ now) :
    σ.sessions.length = σ.sessionOrder.length := by
  have p1 : List.Subperm (σ.sessions.map Prod.fst) σ.sessionOrder :=
    h.keysNodup.subperm (fun a ha => (h.memIff a).mp ha)
  have p2 : List.Subperm σ.sessionOrder (σ.sessions.map Prod.fst) :=
    h.orderNodup.subperm (fun a ha => (h.memIff a).mpr ha)
  have h3 := (p1.antisymm p2).length_eq
  simpa using h3

theorem Inv.mono {σ : SessionStore} {t1 t2 : Int} (h : Inv σ t1) (ht : t1 ≤ t2) :
    Inv σ t2 :=
  { h with activeLe := fun p hp => le_trans (h.activeLe p hp) ht }

theorem inv_newSessionStore (idleTimeout : Int) (maxS maxM maxB : Nat) (t : Int)
    (hS : 1 ≤ maxS) (hM : 1 ≤ maxM) :
    Inv (newSessionStore idleTimeout maxS maxM maxB) t := by
  constructor <;> simp [newSessionStore]
  · exact hS
  · exact hM

theorem inv_registerSession {σ : SessionStore} {t : Int} (h : Inv σ t)
    (id : String) : Inv (registerSession σ id) t := by
  have hval : σ.validSessions ⊆ (registerSession σ id).validSessions := by
    intro a ha
    simp only [registerSession]
    split
    · exact ha
    · exact List.mem_append_left _ ha
  refine ⟨h.keysNodup, h.orderNodup, ?_, h.memIff, ?_, h.maxPos, h.msgMaxPos,
    h.sizeBound, h.msgBound, h.activeLe, h.sorted⟩
  · simp only [registerSession]
    split
    case _ hmem => exact h.validNodup
    case _ hmem =>
      rw [List.nodup_append]
      exact ⟨h.validNodup, List.nodup_singleton id,
        fun a ha hb => hmem ((List.mem_singleton.mp hb) ▸ ha)⟩
  · exact fun j hj => hval (h.orderValid j hj)

theorem evictOldest_cons {σ : SessionStore} {t : Int} {ev : String}
    {rest : List String} (h : Inv σ t) (horder : σ.sessionOrder = ev :: rest) :
    Inv (evictOldestSession σ) t ∧
    (evictOldestSession σ).sessions.length + 1 = σ.sessions.length ∧
    (evictOldestSession σ).sessionOrder = rest ∧
    alookup (evictOldestSession σ).sessions ev = none ∧
    ev ∉ (evictOldestSession σ).validSessions ∧
    (∀ j, j ≠ ev → alookup (evictOldestSession σ).sessions j = alookup σ.sessions j) ∧
    (evictOldestSession σ).validSessions = σ.validSessions.erase ev ∧
    (evictOldestSession σ).maxSessions = σ.maxSessions := by
  have hev_order : ev ∈ σ.sessionOrder := horder ▸ List.mem_cons_self ev rest
  have hev_keys : ev ∈ σ.sessions.map Prod.fst := (h.memIff ev).mpr hev_order
  have hev_rest : ev ∉ rest := by
    have := h.orderNodup
    rw [horder, List.nodup_cons] at this
    exact this.1
  have hrest_nodup : rest.Nodup := by
    have := h.orderNodup
    rw [horder, List.nodup_cons] at this
    exact this.2
  have hσ' : evictOldestSession σ =
      { σ with sessionOrder := rest, sessions := aerase σ.sessions ev,
               validSessions := σ.validSessions.erase ev } := by
    unfold evictOldestSession
    rw [horder]
  rw [hσ']
  have hkeys' : (aerase σ.sessions ev).map Prod.fst = (σ.sessions.map Prod.fst).erase ev :=
    akeys_aerase σ.sessions ev
  have hlen : (aerase σ.sessions ev).length + 1 = σ.sessions.length :=
    length_aerase_of_mem hev_keys
  have hlookup_ne : ∀ j, j ≠ ev → alookup (aerase σ.sessions ev) j = alookup σ.sessions j :=
    fun j hj => alookup_aerase_ne hj
  refine ⟨?_, hlen, rfl, alookup_aerase_self h.keysNodup, ?_, hlookup_ne, rfl, rfl⟩
  · refine ⟨?_, hrest_nodup, h.validNodup.erase ev, ?_, ?_, h.maxPos, h.msgMaxPos,
      ?_, ?_, ?_, ?_⟩
    · rw [hkeys']
      exact h.keysNodup.erase ev
    · intro j
      rw [hkeys', h.keysNodup.mem_erase_iff]
      constructor
      · rintro ⟨hne, hmem⟩
        have := (h.memIff j).mp hmem
        rw [horder] at this
        rcases List.mem_cons.mp this with h1 | h1
        · exact absurd h1 hne
        · exact h1
      · intro hj
        refine ⟨fun he => hev_rest (he ▸ hj), (h.memIff j).mpr ?_⟩
        rw [horder]
        exact List.mem_cons_of_mem ev hj
    · intro j hj
      have hjo : j ∈ σ.sessionOrder := by
        rw [horder]; exact List.mem_cons_of_mem ev hj
      have hjne : j ≠ ev := fun he => hev_rest (he ▸ hj)
      exact (h.validNodup.mem_erase_iff).mpr ⟨hjne, h.orderValid j hjo⟩
    · calc (aerase σ.sessions ev).length ≤ σ.sessions.length := by omega
        _ ≤ σ.maxSessions := h.sizeBound
    · exact fun p hp => h.msgBound p (mem_aerase hp)
    · exact fun p hp => h.activeLe p (mem_aerase hp)
    · have hrest : σ.sessionOrder.Pairwise
          (fun a b => activeOf σ a ≤ activeOf σ b) := h.sorted
      rw [horder, List.pairwise_cons] at hrest
      refine hrest.2.imp_of_mem ?_
      intro a b ha hb hab
      have hane : a ≠ ev := fun he => hev_rest (he ▸ ha)
      have hbne : b ≠ ev := fun he => hev_rest (he ▸ hb)
      simpa [activeOf, hlookup_ne a hane, hlookup_ne b hbne] using hab
  · rw [(h.validNodup).mem_erase_iff]
    exact fun hc => hc.1 rfl

theorem evictLoop_stops {fuel : Nat} {σ : SessionStore}
    (h : ¬ σ.maxSessions ≤ σ.sessions.length) : evictLoop fuel σ = σ := by
  cases fuel with
  | zero => rfl
  | succ n => simp [evictLoop, h]

theorem evictLoop_inv_aux {t : Int} :
    ∀ (fuel : Nat) (σ : SessionStore), Inv σ t → σ.sessions.length ≤ fuel →
      Inv (evictLoop fuel σ) t ∧ (evictLoop fuel σ).sessions.length < σ.maxSessions ∧
      (evictLoop fuel σ).maxSessions = σ.maxSessions := by
  intro fuel
  induction fuel with
  | zero =>
    intro σ h hle
    have h0 : σ.sessions.length = 0 := Nat.le_zero.mp hle
    refine ⟨h, ?_, rfl⟩
    rw [show evictLoop 0 σ = σ from rfl, h0]
    exact h.maxPos
  | succ n ih =>
    intro σ h hle
    by_cases hcond : σ.maxSessions ≤ σ.sessions.length
    · have hpos : 1 ≤ σ.sessions.length := le_trans h.maxPos hcond
      have hordlen : σ.sessionOrder.length = σ.sessions.length := h.lenEq.symm
      obtain ⟨ev, rest, horder⟩ : ∃ ev rest, σ.sessionOrder = ev :: rest := by
        cases horder : σ.sessionOrder with
        | nil => rw [horder] at hordlen; simp at hordlen; omega
        | cons a l => exact ⟨a, l, rfl⟩
      obtain ⟨hinv', hlen', _, _, _, _, _, hmax'⟩ := evictOldest_cons h horder
      have hle' : (evictOldestSession σ).sessions.length ≤ n := by omega
      have hres := ih (evictOldestSession σ) hinv' hle'
      rw [show evictLoop (n + 1) σ = evictLoop n (evictOldestSession σ) by
        simp [evictLoop, hcond]]
      exact ⟨hres.1, hmax' ▸ hres.2.1, hmax' ▸ hres.2.2⟩
    · rw [evictLoop_stops hcond]
      exact ⟨h, Nat.lt_of_not_le hcond, rfl⟩

theorem evictLoop_inv {σ : SessionStore} {t : Int} (h : Inv σ t) :
    Inv (evictLoop σ.sessionOrder.length σ) t ∧
    (evictLoop σ.sessionOrder.length σ).sessions.length < σ.maxSessions ∧
    (evictLoop σ.sessionOrder.length σ).maxSessions = σ.maxSessions :=
  evictLoop_inv_aux σ.sessionOrder.length σ h (le_of_eq h.lenEq)

/-- A registered id that is not stored is untouched by eviction. -/
theorem evictOldest_untouched {σ : SessionStore} {id : String}
    (hv : id ∈ σ.validSessions) (hk : alookup σ.sessions id = none)
    (ho : id ∉ σ.sessionOrder) :
    id ∈ (evictOldestSession σ).validSessions ∧
    alookup (evictOldestSession σ).sessions id = none ∧
    id ∉ (evictOldestSession σ).sessionOrder := by
  cases horder : σ.sessionOrder with
  | nil =>
    have heq : evictOldestSession σ = σ := by
      unfold evictOldestSession
      rw [horder]
    rw [heq]
    exact ⟨hv, hk, horder ▸ ho⟩
  | cons ev rest =>
    have hne : id ≠ ev := by
      intro he
      exact ho (horder ▸ (he ▸ List.mem_cons_self ev rest))
    have heq : evictOldestSession σ =
        { σ with sessionOrder := rest, sessions := aerase σ.sessions ev,
                 validSessions := σ.validSessions.erase ev } := by
      unfold evictOldestSession
      rw [horder]
    rw [heq]
    refine ⟨List.mem_erase_of_ne hne |>.mpr hv, ?_, ?_⟩
    · rw [alookup_aerase_ne hne]
      exact hk
    · intro hmem
      exact ho (horder ▸ List.mem_cons_of_mem ev hmem)

theorem evictLoop_untouched {id : String} :
    ∀ (fuel : Nat) (σ : SessionStore),
      id ∈ σ.validSessions → alookup σ.sessions id = none → id ∉ σ.sessionOrder →
      id ∈ (evictLoop fuel σ).validSessions ∧
      alookup (evictLoop fuel σ).sessions id = none ∧
      id ∉ (evictLoop fuel σ).sessionOrder := by
  intro fuel
  induction fuel with
  | zero => exact fun σ hv hk ho => ⟨hv, hk, ho⟩
  | succ n ih =>
    intro σ hv hk ho
    by_cases hcond : σ.maxSessions ≤ σ.sessions.length
    · rw [show evictLoop (n + 1) σ = evictLoop n (evictOldestSession σ) by
        simp [evictLoop, hcond]]
      obtain ⟨hv', hk', ho'⟩ := evictOldest_untouched hv hk ho
      exact ih (evictOldestSession σ) hv' hk' ho'
    · rw [evictLoop_stops hcond]
      exact ⟨hv, hk, ho⟩

/-- The successful-append state update (`AppendMessage`'s final block)
preserves the invariant: `news` is the updated session struct written back
for an id that is already stored. -/
theorem append_update_inv {σ : SessionStore} {t2 : Int} {id : String}
    (news : Session) (h : Inv σ t2) (hexists : id ∈ σ.sessions.map Prod.fst)
    (hv : id ∈ σ.validSessions)
    (hmsg : news.messages.length ≤ σ.maxMessagesPerSession)
    (hact : news.lastActive = t2) :
    Inv { σ with sessions := aupsert σ.sessions id news,
                 sessionOrder := updateSessionOrder σ.sessionOrder id } t2 := by
  have hkeys' : (aupsert σ.sessions id news).map Prod.fst = σ.sessions.map Prod.fst :=
    akeys_aupsert_of_mem _ hexists
  have hid_not_erase : id ∉ σ.sessionOrder.erase id := by
    rw [h.orderNodup.mem_erase_iff]
    exact fun hc => hc.1 rfl
  have horder_eq : updateSessionOrder σ.sessionOrder id =
      σ.sessionOrder.erase id ++ [id] := rfl
  have f1 : ((aupsert σ.sessions id news).map Prod.fst).Nodup := by
    rw [hkeys']
    exact h.keysNodup
  have f2 : (updateSessionOrder σ.sessionOrder id).Nodup := by
    rw [horder_eq, List.nodup_append]
    exact ⟨h.orderNodup.erase id, List.nodup_singleton id,
      fun a ha hb => hid_not_erase ((List.mem_singleton.mp hb) ▸ ha)⟩
  have f3 : ∀ j : String, j ∈ (aupsert σ.sessions id news).map Prod.fst ↔
      j ∈ updateSessionOrder σ.sessionOrder id := by
    intro j
    rw [hkeys', horder_eq, List.mem_append, List.mem_singleton]
    by_cases hj : j = id
    · subst hj
      simp [hexists]
    · rw [h.orderNodup.mem_erase_iff]
      constructor
      · intro hmem
        exact Or.inl ⟨hj, (h.memIff j).mp hmem⟩
      · rintro (⟨_, hmem⟩ | he)
        · exact (h.memIff j).mpr hmem
        · exact absurd he hj
  have f4 : ∀ j ∈ updateSessionOrder σ.sessionOrder id, j ∈ σ.validSessions := by
    intro j hj
    rw [horder_eq, List.mem_append, List.mem_singleton] at hj
    rcases hj with hj | hj
    · exact h.orderValid j ((List.erase_sublist id σ.sessionOrder).subset hj)
    · exact hj ▸ hv
  have f5 : (aupsert σ.sessions id news).length ≤ σ.maxSessions := by
    rw [length_aupsert_of_mem _ hexists]
    exact h.sizeBound
  have f6 : ∀ p ∈ aupsert σ.sessions id news,
      (Prod.snd p).messages.length ≤ σ.maxMessagesPerSession := by
    intro p hp
    rcases mem_aupsert hp with hp1 | hp1
    · rw [hp1]
      exact hmsg
    · exact h.msgBound p hp1
  have f7 : ∀ p ∈ aupsert σ.sessions id news, (Prod.snd p).lastActive ≤ t2 := by
    intro p hp
    rcases mem_aupsert hp with hp1 | hp1
    · rw [hp1]
      exact le_of_eq hact
    · exact h.activeLe p hp1
  have hlook_ne : ∀ j : String, j ≠ id →
      alookup (aupsert σ.sessions id news) j = alookup σ.sessions j :=
    fun j hj => alookup_aupsert_ne _ hj
  have hact_int : ∀ σ2 : SessionStore, σ2.sessions = aupsert σ.sessions id news →
      ∀ j : String, j ≠ id → activeOf σ2 j = activeOf σ j := by
    intro σ2 h2 j hj
    simp only [activeOf, h2, hlook_ne j hj]
  have hact_id : ∀ σ2 : SessionStore, σ2.sessions = aupsert σ.sessions id news →
      activeOf σ2 id = t2 := by
    intro σ2 h2
    simp only [activeOf, h2, alookup_aupsert_self]
    exact hact
  have f8 : (updateSessionOrder σ.sessionOrder id).Pairwise
      (fun a b =>
        activeOf { σ with sessions := aupsert σ.sessions id news,
                          sessionOrder := updateSessionOrder σ.sessionOrder id } a ≤
        activeOf { σ with sessions := aupsert σ.sessions id news,
                          sessionOrder := updateSessionOrder σ.sessionOrder id } b) := by
    rw [horder_eq, List.pairwise_append]
    refine ⟨?_, List.pairwise_singleton _ _, ?_⟩
    · refine (h.sorted.sublist (List.erase_sublist id σ.sessionOrder)).imp_of_mem ?_
      intro a b ha hb hab
      have hane : a ≠ id := fun he => hid_not_erase (he ▸ ha)
      have hbne : b ≠ id := fun he => hid_not_erase (he ▸ hb)
      show activeOf _ a ≤ activeOf _ b
      rw [hact_int _ rfl a hane, hact_int _ rfl b hbne]
      exact hab
    · intro a ha b hb
      rw [List.mem_singleton] at hb
      have hane : a ≠ id := fun he => hid_not_erase (he ▸ ha)
      have hamem : a ∈ σ.sessions.map Prod.fst :=
        (h.memIff a).mpr ((List.erase_sublist id σ.sessionOrder).subset ha)
      obtain ⟨s, hsv⟩ := Option.isSome_iff_exists.mp (alookup_isSome_iff.mpr hamem)
      have hle := h.activeLe (a, s) (alookup_mem hsv)
      have hs2 : activeOf σ a = s.lastActive := by
        simp [activeOf, hsv]
      show activeOf _ a ≤ activeOf _ b
      rw [hb, hact_int _ rfl a hane, hact_id _ rfl, hs2]
      exact hle
  exact ⟨f1, f2, h.validNodup, f3, f4, h.maxPos, h.msgMaxPos, f5, f6, f7, f8⟩

theorem appendChecked_inv {σ : SessionStore} {t2 : Int} {session : Session}
    {id : String} {role : Role} {text : String}
    (h : Inv σ t2) (hs : alookup σ.sessions id = some session)
    (hv : id ∈ σ.validSessions) :
    Inv (appendChecked σ session t2 id role text).1 t2 := by
  unfold appendChecked
  by_cases h1 : σ.maxMessagesPerSession ≤ session.messages.length
  · simpa [h1] using h
  · by_cases h2 : σ.maxSessionSizeBytes <
        getSessionSize session + text.utf8ByteSize + (roleString role).utf8ByteSize + 24
    · simpa [h1, h2] using h
    · rw [if_neg h1, if_neg h2]
      refine append_update_inv _ h (alookup_isSome_iff.mp (by rw [hs]; rfl)) hv ?_ rfl
      simp only [List.length_append, List.length_singleton]
      exact Nat.succ_le_of_lt (Nat.lt_of_not_le h1)

/-- Materialising a fresh empty session (the lazy-create step of
`AppendMessage`) preserves the invariant when there is room. -/
theorem insert_fresh_inv {σ : SessionStore} {t2 : Int} {id : String}
    (h : Inv σ t2) (hnotin : alookup σ.sessions id = none)
    (hv : id ∈ σ.validSessions) (hroom : σ.sessions.length < σ.maxSessions) :
    Inv { σ with sessions := aupsert σ.sessions id { messages := [], lastActive := t2 },
                 sessionOrder := σ.sessionOrder ++ [id] } t2 := by
  have hknot : id ∉ σ.sessions.map Prod.fst := alookup_eq_none_iff.mp hnotin
  have honot : id ∉ σ.sessionOrder := fun hmem => hknot ((h.memIff id).mpr hmem)
  have hkeys' : (aupsert σ.sessions id { messages := [], lastActive := t2 }).map Prod.fst
      = σ.sessions.map Prod.fst ++ [id] := akeys_aupsert_of_not_mem _ hknot
  have hlook_ne : ∀ j : String, j ≠ id →
      alookup (aupsert σ.sessions id { messages := [], lastActive := t2 }) j
        = alookup σ.sessions j :=
    fun j hj => alookup_aupsert_ne _ hj
  have f1 : ((aupsert σ.sessions id { messages := [], lastActive := t2 }).map Prod.fst).Nodup := by
    rw [hkeys', List.nodup_append]
    exact ⟨h.keysNodup, List.nodup_singleton id,
      fun a ha hb => hknot ((List.mem_singleton.mp hb) ▸ ha)⟩
  have f2 : (σ.sessionOrder ++ [id]).Nodup := by
    rw [List.nodup_append]
    exact ⟨h.orderNodup, List.nodup_singleton id,
      fun a ha hb => honot ((List.mem_singleton.mp hb) ▸ ha)⟩
  have f3 : ∀ j : String,
      j ∈ (aupsert σ.sessions id { messages := [], lastActive := t2 }).map Prod.fst ↔
      j ∈ σ.sessionOrder ++ [id] := by
    intro j
    rw [hkeys', List.mem_append, List.mem_append, h.memIff j]
  have f4 : ∀ j ∈ σ.sessionOrder ++ [id], j ∈ σ.validSessions := by
    intro j hj
    rcases List.mem_append.mp hj with hj | hj
    · exact h.orderValid j hj
    · exact (List.mem_singleton.mp hj) ▸ hv
  have f5 : (aupsert σ.sessions id { messages := [], lastActive := t2 }).length
      ≤ σ.maxSessions := by
    rw [length_aupsert_of_not_mem _ hknot]
    omega
  have f6 : ∀ p ∈ aupsert σ.sessions id { messages := [], lastActive := t2 },
      (Prod.snd p).messages.length ≤ σ.maxMessagesPerSession := by
    intro p hp
    rcases mem_aupsert hp with hp1 | hp1
    · rw [hp1]
      exact Nat.zero_le _
    · exact h.msgBound p hp1
  have f7 : ∀ p ∈ aupsert σ.sessions id { messages := [], lastActive := t2 },
      (Prod.snd p).lastActive ≤ t2 := by
    intro p hp
    rcases mem_aupsert hp with hp1 | hp1
    · rw [hp1]
    · exact h.activeLe p hp1
  have hact_int : ∀ σ2 : SessionStore,
      σ2.sessions = aupsert σ.sessions id { messages := [], lastActive := t2 } →
      ∀ j : String, j ≠ id → activeOf σ2 j = activeOf σ j := by
    intro σ2 h2 j hj
    simp only [activeOf, h2, hlook_ne j hj]
  have hact_id : ∀ σ2 : SessionStore,
      σ2.sessions = aupsert σ.sessions id { messages := [], lastActive := t2 } →
      activeOf σ2 id = t2 := by
    intro σ2 h2
    simp only [activeOf, h2, alookup_aupsert_self]
  have f8 : (σ.sessionOrder ++ [id]).Pairwise
      (fun a b =>
        activeOf { σ with
          sessions := aupsert σ.sessions id { messages := [], lastActive := t2 }
          sessionOrder := σ.sessionOrder ++ [id] } a ≤
        activeOf { σ with
          sessions := aupsert σ.sessions id { messages := [], lastActive := t2 }
          sessionOrder := σ.sessionOrder ++ [id] } b) := by
    rw [List.pairwise_append]
    refine ⟨?_, List.pairwise_singleton _ _, ?_⟩
    · refine h.sorted.imp_of_mem ?_
      intro a b ha hb hab
      have hane : a ≠ id := fun he => honot (he ▸ ha)
      have hbne : b ≠ id := fun he => honot (he ▸ hb)
      show activeOf _ a ≤ activeOf _ b
      rw [hact_int _ rfl a hane, hact_int _ rfl b hbne]
      exact hab
    · intro a ha b hb
      rw [List.mem_singleton] at hb
      have hane : a ≠ id := fun he => honot (he ▸ ha)
      have hamem : a ∈ σ.sessions.map Prod.fst := (h.memIff a).mpr ha
      obtain ⟨s, hsv⟩ := Option.isSome_iff_exists.mp (alookup_isSome_iff.mpr hamem)
      have hle := h.activeLe (a, s) (alookup_mem hsv)
      have hs2 : activeOf σ a = s.lastActive := by
        simp [activeOf, hsv]
      show activeOf _ a ≤ activeOf _ b
      rw [hb, hact_int _ rfl a hane, hact_id _ rfl, hs2]
      exact hle
  exact ⟨f1, f2, h.validNodup, f3, f4, h.maxPos, h.msgMaxPos, f5, f6, f7, f8⟩

/-- `AppendMessage` preserves the invariant under a monotone clock, whatever
it returns. -/
theorem appendMessage_inv {σ : SessionStore} {t : Int} (h : Inv σ t)
    {t2 : Int} (ht : t ≤ t2) (id : String) (role : Role) (text : String) :
    Inv (appendMessage σ t2 id role text).1 t2 := by
  have hI : Inv σ t2 := h.mono ht
  unfold appendMessage
  by_cases hv : id ∈ σ.validSessions
  · rw [if_pos hv]
    rcases hsl : alookup σ.sessions id with _ | session
    · have honot : id ∉ σ.sessionOrder := by
        intro hmem
        have hk := (h.memIff id).mpr hmem
        rw [alookup_eq_none_iff] at hsl
        exact hsl hk
      obtain ⟨hIe, hroom, hmaxeq⟩ := evictLoop_inv hI
      obtain ⟨hv', hk', ho'⟩ :=
        evictLoop_untouched σ.sessionOrder.length σ hv hsl honot
      have hI1 : Inv { evictLoop σ.sessionOrder.length σ with
          sessions := aupsert (evictLoop σ.sessionOrder.length σ).sessions id
            { messages := [], lastActive := t2 }
          sessionOrder := (evictLoop σ.sessionOrder.length σ).sessionOrder ++ [id] } t2 :=
        insert_fresh_inv hIe hk' hv' (hmaxeq ▸ hroom)
      exact appendChecked_inv hI1 (alookup_aupsert_self _ _ _) hv'
    · exact appendChecked_inv hI hsl hv
  · rw [if_neg hv]
    exact hI

theorem mem_foldl_erase {ids : List String} :
    ∀ {l : List String}, l.Nodup → ∀ j : String,
      (j ∈ ids.foldl (fun acc x => acc.erase x) l ↔ j ∈ l ∧ j ∉ ids) := by
  induction ids with
  | nil => intro l _ j; simp
  | cons x rest ih =>
    intro l hnd j
    rw [List.foldl_cons]
    rw [ih (hnd.erase x) j, hnd.mem_erase_iff]
    simp only [List.mem_cons]
    constructor
    · rintro ⟨⟨hne, hmem⟩, hnin⟩
      exact ⟨hmem, fun hc => hc.elim hne hnin⟩
    · rintro ⟨hmem, hnin⟩
      push_neg at hnin
      exact ⟨⟨hnin.1, hmem⟩, hnin.2⟩

theorem foldl_erase_sublist (ids : List String) :
    ∀ l : List String, (ids.foldl (fun acc x => acc.erase x) l).Sublist l := by
  induction ids with
  | nil => intro l; exact List.Sublist.refl l
  | cons x rest ih =>
    intro l
    rw [List.foldl_cons]
    exact (ih (l.erase x)).trans (List.erase_sublist x l)

theorem mem_keys_filter {α : Type} {m : List (String × α)} (p : String × α → Bool)
    (hnd : (m.map Prod.fst).Nodup) {j : String} :
    j ∈ (m.filter p).map Prod.fst ↔ ∃ v, alookup m j = some v ∧ p (j, v) := by
  rw [← alookup_isSome_iff, alookup_filter p hnd]
  rcases h : alookup m j with _ | v
  · simp
  · by_cases hp : p (j, v) <;> simp [hp]

theorem cleanupKeep_iff_not_drop (cutoff : Int) (p : String × Session) :
    cleanupKeep cutoff p = true ↔ cleanupDrop cutoff p = false := by
  simp [cleanupKeep, cleanupDrop]

/-- Invariant preservation for the sweep body, stated over the explicit
record the sweep builds. -/
theorem cleanup_inv_core {σ : SessionStore} {t2 : Int} (cutoff : Int)
    (hI : Inv σ t2) :
    Inv { σ with
      sessions := σ.sessions.filter (cleanupKeep cutoff)
      validSessions := σ.validSessions.filter
        (fun id => !decide (id ∈ (σ.sessions.filter (cleanupDrop cutoff)).map Prod.fst))
      sessionOrder := ((σ.sessions.filter (cleanupDrop cutoff)).map Prod.fst).foldl
        (fun ord id => ord.erase id) σ.sessionOrder } t2 := by
  have hmem_td : ∀ j : String,
      j ∈ (σ.sessions.filter (cleanupDrop cutoff)).map Prod.fst ↔
      ∃ v, alookup σ.sessions j = some v ∧ cleanupDrop cutoff (j, v) :=
    fun j => mem_keys_filter (cleanupDrop cutoff) hI.keysNodup
  have f1 : ((σ.sessions.filter (cleanupKeep cutoff)).map Prod.fst).Nodup :=
    hI.keysNodup.sublist ((List.filter_sublist σ.sessions).map Prod.fst)
  have f2 : (((σ.sessions.filter (cleanupDrop cutoff)).map Prod.fst).foldl
      (fun ord id => ord.erase id) σ.sessionOrder).Nodup :=
    hI.orderNodup.sublist (foldl_erase_sublist _ σ.sessionOrder)
  have f3 : ∀ j : String, j ∈ (σ.sessions.filter (cleanupKeep cutoff)).map Prod.fst ↔
      j ∈ ((σ.sessions.filter (cleanupDrop cutoff)).map Prod.fst).foldl
        (fun ord id => ord.erase id) σ.sessionOrder := by
    intro j
    rw [mem_keys_filter (cleanupKeep cutoff) hI.keysNodup,
      mem_foldl_erase hI.orderNodup, hmem_td j]
    constructor
    · rintro ⟨v, hv, hkv⟩
      have hj_order : j ∈ σ.sessionOrder :=
        (hI.memIff j).mp (alookup_isSome_iff.mp (by rw [hv]; rfl))
      refine ⟨hj_order, ?_⟩
      rintro ⟨u, hu, hcu⟩
      rw [hv] at hu
      injection hu with hu
      subst hu
      rw [cleanupKeep_iff_not_drop] at hkv
      rw [hkv] at hcu
      exact Bool.false_ne_true hcu
    · rintro ⟨hj_order, hnd⟩
      have hj_keys := (hI.memIff j).mpr hj_order
      obtain ⟨v, hv⟩ := Option.isSome_iff_exists.mp (alookup_isSome_iff.mpr hj_keys)
      refine ⟨v, hv, ?_⟩
      rw [cleanupKeep_iff_not_drop]
      by_contra hc
      rw [Bool.not_eq_false] at hc
      exact hnd ⟨v, hv, hc⟩
  have f4 : ∀ j ∈ ((σ.sessions.filter (cleanupDrop cutoff)).map Prod.fst).foldl
      (fun ord id => ord.erase id) σ.sessionOrder,
      j ∈ σ.validSessions.filter
        (fun id => !decide (id ∈ (σ.sessions.filter (cleanupDrop cutoff)).map Prod.fst)) := by
    intro j hj
    rw [mem_foldl_erase hI.orderNodup] at hj
    rw [List.mem_filter]
    refine ⟨hI.orderValid j hj.1, ?_⟩
    simpa using hj.2
  have f5 : (σ.sessions.filter (cleanupKeep cutoff)).length ≤ σ.maxSessions :=
    le_trans (List.length_filter_le _ σ.sessions) hI.sizeBound
  have f6 : ∀ p ∈ σ.sessions.filter (cleanupKeep cutoff),
      (Prod.snd p).messages.length ≤ σ.maxMessagesPerSession :=
    fun p hp => hI.msgBound p (List.mem_of_mem_filter hp)
  have f7 : ∀ p ∈ σ.sessions.filter (cleanupKeep cutoff),
      (Prod.snd p).lastActive ≤ t2 :=
    fun p hp => hI.activeLe p (List.mem_of_mem_filter hp)
  have hact_eq : ∀ σ2 : SessionStore,
      σ2.sessions = σ.sessions.filter (cleanupKeep cutoff) →
      ∀ j : String, j ∈ (σ.sessions.filter (cleanupKeep cutoff)).map Prod.fst →
      activeOf σ2 j = activeOf σ j := by
    intro σ2 h2 j hjk
    rw [mem_keys_filter (cleanupKeep cutoff) hI.keysNodup] at hjk
    obtain ⟨v, hv, hkv⟩ := hjk
    have hl2 : alookup (σ.sessions.filter (cleanupKeep cutoff)) j = some v := by
      rw [alookup_filter (cleanupKeep cutoff) hI.keysNodup, hv]
      simp [hkv]
    simp only [activeOf, h2, hl2, hv]
  have f8 : (((σ.sessions.filter (cleanupDrop cutoff)).map Prod.fst).foldl
      (fun ord id => ord.erase id) σ.sessionOrder).Pairwise
      (fun a b =>
        activeOf { σ with
          sessions := σ.sessions.filter (cleanupKeep cutoff)
          validSessions := σ.validSessions.filter
            (fun id => !decide (id ∈ (σ.sessions.filter (cleanupDrop cutoff)).map Prod.fst))
          sessionOrder := ((σ.sessions.filter (cleanupDrop cutoff)).map Prod.fst).foldl
            (fun ord id => ord.erase id) σ.sessionOrder } a ≤
        activeOf { σ with
          sessions := σ.sessions.filter (cleanupKeep cutoff)
          validSessions := σ.validSessions.filter
            (fun id => !decide (id ∈ (σ.sessions.filter (cleanupDrop cutoff)).map Prod.fst))
          sessionOrder := ((σ.sessions.filter (cleanupDrop cutoff)).map Prod.fst).foldl
            (fun ord id => ord.erase id) σ.sessionOrder } b) := by
    refine (hI.sorted.sublist (foldl_erase_sublist _ σ.sessionOrder)).imp_of_mem ?_
    intro a b ha hb hab
    show activeOf _ a ≤ activeOf _ b
    rw [hact_eq _ rfl a ((f3 a).mpr ha), hact_eq _ rfl b ((f3 b).mpr hb)]
    exact hab
  exact ⟨f1, f2, hI.validNodup.filter _, f3, f4, hI.maxPos, hI.msgMaxPos, f5, f6, f7, f8⟩

/-- `CleanupIdleSessions` preserves the invariant under a monotone clock. -/
theorem cleanup_inv {σ : SessionStore} {t : Int} (h : Inv σ t)
    {t2 : Int} (ht : t ≤ t2) : Inv (cleanupIdleSessions σ t2) t2 :=
  cleanup_inv_core (t2 - σ.idleTimeout) (h.mono ht)

theorem reachable_inv {σ : SessionStore} {t : Int} (h : Reachable σ t) :
    Inv σ t := by
  induction h with
  | init idleTimeout maxS maxM maxB t hS hM =>
    exact inv_newSessionStore idleTimeout maxS maxM maxB t hS hM
  | register h id ih => exact inv_registerSession ih id
  | append h ht id role text ih => exact appendMessage_inv ih ht id role text
  | cleanup h ht ih => exact cleanup_inv ih ht

/-! ### Branch equations for `AppendMessage` -/

theorem appendMessage_not_valid {σ : SessionStore} {t2 : Int} {id : String}
    {role : Role} {text : String} (hv : id ∉ σ.validSessions) :
    appendMessage σ t2 id role text = (σ, some .invalidSession) := by
  simp [appendMessage, hv]

theorem appendMessage_existing {σ : SessionStore} {t2 : Int} {id : String}
    {role : Role} {text : String} {session : Session}
    (hv : id ∈ σ.validSessions) (hsl : alookup σ.sessions id = some session) :
    appendMessage σ t2 id role text = appendChecked σ session t2 id role text := by
  simp [appendMessage, hv, hsl]

theorem appendMessage_fresh {σ : SessionStore} {t2 : Int} {id : String}
    {role : Role} {text : String}
    (hv : id ∈ σ.validSessions) (hsl : alookup σ.sessions id = none) :
    appendMessage σ t2 id role text =
      appendChecked { evictLoop σ.sessionOrder.length σ with
        sessions := aupsert (evictLoop σ.sessionOrder.length σ).sessions id
          { messages := [], lastActive := t2 }
        sessionOrder := (evictLoop σ.sessionOrder.length σ).sessionOrder ++ [id] }
        { messages := [], lastActive := t2 } t2 id role text := by
  simp [appendMessage, hv, hsl]

theorem appendChecked_msgLimit {σ : SessionStore} {session : Session}
    {now : Int} {id : String} {role : Role} {text : String}
    (h1 : σ.maxMessagesPerSession ≤ session.messages.length) :
    appendChecked σ session now id role text = (σ, some .messageLimit) := by
  simp [appendChecked, h1]

theorem appendChecked_sizeLimit {σ : SessionStore} {session : Session}
    {now : Int} {id : String} {role : Role} {text : String}
    (h1 : ¬ σ.maxMessagesPerSession ≤ session.messages.length)
    (h2 : σ.maxSessionSizeBytes <
      getSessionSize session + text.utf8ByteSize + (roleString role).utf8ByteSize + 24) :
    appendChecked σ session now id role text = (σ, some .sizeLimit) := by
  simp [appendChecked, h1, h2]

theorem appendChecked_success {σ : SessionStore} {session : Session}
    {now : Int} {id : String} {role : Role} {text : String}
    (h1 : ¬ σ.maxMessagesPerSession ≤ session.messages.length)
    (h2 : ¬ σ.maxSessionSizeBytes <
      getSessionSize session + text.utf8ByteSize + (roleString role).utf8ByteSize + 24) :
    appendChecked σ session now id role text =
      ({ σ with
          sessions := aupsert σ.sessions id
            { messages := session.messages ++ [{ role := role, text := text, timestamp := now }]
              lastActive := now }
          sessionOrder := updateSessionOrder σ.sessionOrder id }, none) := by
  simp [appendChecked, h1, h2]

theorem appendChecked_valid_eq (σ : SessionStore) (session : Session)
    (now : Int) (id : String) (role : Role) (text : String) :
    (appendChecked σ session now id role text).1.validSessions = σ.validSessions := by
  unfold appendChecked
  split
  · rfl
  · split
    · rfl
    · rfl

theorem appendChecked_lookup_ne (σ : SessionStore) (session : Session)
    (now : Int) (id : String) (role : Role) (text : String)
    {j : String} (hj : j ≠ id) :
    alookup (appendChecked σ session now id role text).1.sessions j =
      alookup σ.sessions j := by
  unfold appendChecked
  split
  · rfl
  · split
    · rfl
    · exact alookup_aupsert_ne _ hj

theorem appendChecked_lookup_self_isSome (σ : SessionStore) (session : Session)
    (now : Int) (id : String) (role : Role) (text : String)
    (h : (alookup σ.sessions id).isSome) :
    (alookup (appendChecked σ session now id role text).1.sessions id).isSome := by
  unfold appendChecked
  split
  · exact h
  · split
    · exact h
    · rw [alookup_aupsert_self]
      rfl

theorem appendChecked_length (σ : SessionStore) (session : Session)
    (now : Int) (id : String) (role : Role) (text : String)
    (hmem : id ∈ σ.sessions.map Prod.fst) :
    (appendChecked σ session now id role text).1.sessions.length =
      σ.sessions.length := by
  unfold appendChecked
  split
  · rfl
  · split
    · rfl
    · exact length_aupsert_of_mem _ hmem

/-- At capacity exactly, the eviction loop runs exactly once. -/
theorem evictLoop_once {σ : SessionStore} {t : Int} (h : Inv σ t)
    (hcap : σ.sessions.length = σ.maxSessions) :
    evictLoop σ.sessionOrder.length σ = evictOldestSession σ := by
  have hlen : σ.sessionOrder.length = σ.maxSessions := h.lenEq ▸ hcap
  have hpos : 1 ≤ σ.sessionOrder.length := hlen ▸ h.maxPos
  obtain ⟨n, hn⟩ : ∃ n, σ.sessionOrder.length = n + 1 := by
    cases hh : σ.sessionOrder.length with
    | zero => omega
    | succ n => exact ⟨n, rfl⟩
  rw [hn]
  rw [show evictLoop (n + 1) σ =
    (if σ.maxSessions ≤ σ.sessions.length then evictLoop n (evictOldestSession σ)
     else σ) from rfl]
  rw [if_pos (le_of_eq hcap.symm)]
  obtain ⟨ev, rest, horder⟩ : ∃ ev rest, σ.sessionOrder = ev :: rest := by
    cases hh : σ.sessionOrder with
    | nil => rw [hh] at hpos; simp at hpos
    | cons a l => exact ⟨a, l, rfl⟩
  obtain ⟨_, hlen', _, _, _, _, _, hmax'⟩ := evictOldest_cons h horder
  apply evictLoop_stops
  rw [hmax']
  omega

/-- `AppendMessage` materialising a fresh session while the store is at
capacity: the LRU head — the stored session with the least `last_active` — is
evicted from both the session map and the valid set, and the stored key set
afterwards is the old one minus the evictee plus the new id. -/
theorem appendMessage_at_capacity {σ : SessionStore} {t : Int}
    (hI : Inv σ t) (t2 : Int) (id : String) (role : Role) (text : String)
    (hv : id ∈ σ.validSessions) (hsl : alookup σ.sessions id = none)
    (hcap : σ.sessions.length = σ.maxSessions) :
    ∃ ev rest, σ.sessionOrder = ev :: rest ∧
      (∀ p ∈ σ.sessions, activeOf σ ev ≤ (Prod.snd p).lastActive) ∧
      ev ≠ id ∧
      alookup (appendMessage σ t2 id role text).1.sessions ev = none ∧
      ev ∉ (appendMessage σ t2 id role text).1.validSessions ∧
      (∀ j : String, (alookup (appendMessage σ t2 id role text).1.sessions j).isSome ↔
        (((alookup σ.sessions j).isSome ∧ j ≠ ev) ∨ j = id)) ∧
      (appendMessage σ t2 id role text).1.sessions.length = σ.maxSessions := by
  have hknot : id ∉ σ.sessions.map Prod.fst := alookup_eq_none_iff.mp hsl
  have hlen : σ.sessionOrder.length = σ.maxSessions := hI.lenEq ▸ hcap
  have hpos : 1 ≤ σ.sessionOrder.length := hlen ▸ hI.maxPos
  obtain ⟨ev, rest, horder⟩ : ∃ ev rest, σ.sessionOrder = ev :: rest := by
    cases hh : σ.sessionOrder with
    | nil => rw [hh] at hpos; simp at hpos
    | cons a l => exact ⟨a, l, rfl⟩
  have hev_order : ev ∈ σ.sessionOrder := horder ▸ List.mem_cons_self ev rest
  have hev_ne : ev ≠ id := by
    intro he
    have hm := (hI.memIff ev).mpr hev_order
    rw [he] at hm
    exact hknot hm
  obtain ⟨hIe, hlene, hordere, hlooke, hvale, hlooke_ne, hvalerase, hmaxe⟩ :=
    evictOldest_cons hI horder
  have honce : evictLoop σ.sessionOrder.length σ = evictOldestSession σ :=
    evictLoop_once hI hcap
  have hfresh := @appendMessage_fresh σ t2 id role text hv hsl
  rw [honce] at hfresh
  have hmin : ∀ p ∈ σ.sessions, activeOf σ ev ≤ (Prod.snd p).lastActive := by
    intro p hp
    have hpk : p.1 ∈ σ.sessions.map Prod.fst := List.mem_map.mpr ⟨p, hp, rfl⟩
    have hpo : p.1 ∈ σ.sessionOrder := (hI.memIff p.1).mp hpk
    have hplook : alookup σ.sessions p.1 = some p.2 :=
      alookup_of_mem hI.keysNodup (by rwa [← Prod.mk.eta (p := p)] at hp)
    have hpact : activeOf σ p.1 = (Prod.snd p).lastActive := by
      simp [activeOf, hplook]
    rw [horder] at hpo
    rcases List.mem_cons.mp hpo with hp1 | hp1
    · rw [← hpact, hp1]
    · have hsorted := hI.sorted
      rw [horder, List.pairwise_cons] at hsorted
      rw [← hpact]
      exact hsorted.1 p.1 hp1
  -- the store after eviction and fresh materialisation
  have hlook_e_id : alookup (evictOldestSession σ).sessions id = none := by
    rw [hlooke_ne id (fun he => hev_ne he.symm)]
    exact hsl
  have hmemid : id ∈ (aupsert (evictOldestSession σ).sessions id
      { messages := [], lastActive := t2 }).map Prod.fst := by
    rw [akeys_aupsert_of_not_mem _ (alookup_eq_none_iff.mp hlook_e_id)]
    exact List.mem_append_right _ (List.mem_singleton.mpr rfl)
  refine ⟨ev, rest, horder, hmin, hev_ne, ?_, ?_, ?_, ?_⟩
  · rw [hfresh]
    rw [appendChecked_lookup_ne _ _ _ _ _ _ hev_ne]
    simp only []
    rw [alookup_aupsert_ne _ hev_ne]
    exact hlooke
  · rw [hfresh, appendChecked_valid_eq]
    exact hvale
  · intro j
    by_cases hj_id : j = id
    · subst hj_id
      constructor
      · intro _
        exact Or.inr rfl
      · intro _
        rw [hfresh]
        apply appendChecked_lookup_self_isSome
        simp only []
        rw [alookup_aupsert_self]
        rfl
    · rw [hfresh]
      by_cases hj_ev : j = ev
      · subst hj_ev
        rw [appendChecked_lookup_ne _ _ _ _ _ _ hj_id]
        simp only []
        rw [alookup_aupsert_ne _ hj_id, hlooke]
        simpa using hj_id
      · rw [appendChecked_lookup_ne _ _ _ _ _ _ hj_id]
        simp only []
        rw [alookup_aupsert_ne _ hj_id, hlooke_ne j hj_ev]
        simp [hj_id, hj_ev]
  · rw [hfresh]
    rw [appendChecked_length _ _ _ _ _ _ hmemid]
    simp only []
    rw [length_aupsert_of_not_mem _ (alookup_eq_none_iff.mp hlook_e_id)]
    omega

theorem appendChecked_ok_messages {σ1 : SessionStore} {session : Session}
    {t2 : Int} {id : String} {role : Role} {text : String} {σ2 : SessionStore}
    (h : appendChecked σ1 session t2 id role text = (σ2, none)) :
    getMessages σ2 id =
      session.messages ++ [{ role := role, text := text, timestamp := t2 }] := by
  unfold appendChecked at h
  by_cases h1 : σ1.maxMessagesPerSession ≤ session.messages.length
  · rw [if_pos h1] at h
    simp at h
  · rw [if_neg h1] at h
    by_cases h2 : σ1.maxSessionSizeBytes <
        getSessionSize session + text.utf8ByteSize + (roleString role).utf8ByteSize + 24
    · rw [if_pos h2] at h
      simp at h
    · rw [if_neg h2] at h
      injection h with hfst hsnd
      rw [← hfst]
      unfold getMessages
      rw [show alookup (aupsert σ1.sessions id
          { messages := session.messages ++ [{ role := role, text := text, timestamp := t2 }]
            lastActive := t2 }) id =
        some { messages := session.messages ++
                 [{ role := role, text := text, timestamp := t2 }]
               lastActive := t2 } from alookup_aupsert_self _ _ _]

/-- A successful `AppendMessage` appends exactly the one message, stamped
with the call's clock, to the target session. -/
theorem appendMessage_ok {σ : SessionStore} {t2 : Int} {id : String}
    {role : Role} {text : String} {σ2 : SessionStore}
    (h : appendMessage σ t2 id role text = (σ2, none)) :
    getMessages σ2 id =
      getMessages σ id ++ [{ role := role, text := text, timestamp := t2 }] := by
  by_cases hv : id ∈ σ.validSessions
  · rcases hsl : alookup σ.sessions id with _ | session
    · rw [appendMessage_fresh hv hsl] at h
      have hmsgs := appendChecked_ok_messages h
      rw [hmsgs]
      unfold getMessages
      rw [hsl]
    · rw [appendMessage_existing hv hsl] at h
      have hmsgs := appendChecked_ok_messages h
      rw [hmsgs]
      unfold getMessages
      rw [hsl]
  · rw [appendMessage_not_valid hv] at h
    simp at h

theorem appendChecked_order (σ : SessionStore) (session : Session)
    (now : Int) (id : String) (role : Role) (text : String) :
    (appendChecked σ session now id role text).1.sessionOrder = σ.sessionOrder ∨
    (appendChecked σ session now id role text).1.sessionOrder =
      updateSessionOrder σ.sessionOrder id := by
  unfold appendChecked
  split
  · exact Or.inl rfl
  · split
    · exact Or.inl rfl
    · exact Or.inr rfl

theorem alookup_filter_none {α : Type} {m : List (String × α)} {k : String}
    (p : String × α → Bool) (h : alookup m k = none) :
    alookup (m.filter p) k = none := by
  rw [alookup_eq_none_iff] at h ⊢
  exact fun hmem => h (List.map_subset Prod.fst (List.filter_subset' m) hmem)

/-- A registered id that is not stored and is never the target of an
`AppendMessage` stays registered, unstored and outside the LRU order through
any single operation. -/
theorem runOp_untouched {σ : SessionStore} {op : StoreOp} {id : String}
    (hop : appendsTo op id = false)
    (hv : id ∈ σ.validSessions) (hk : alookup σ.sessions id = none)
    (ho : id ∉ σ.sessionOrder) :
    id ∈ (runOp σ op).validSessions ∧ alookup (runOp σ op).sessions id = none ∧
    id ∉ (runOp σ op).sessionOrder := by
  cases op with
  | register j =>
    refine ⟨?_, hk, ho⟩
    show id ∈ (registerSession σ j).validSessions
    unfold registerSession
    split
    · exact hv
    · exact List.mem_append_left _ hv
  | cleanup t =>
    show id ∈ (cleanupIdleSessions σ t).validSessions ∧ _ ∧ _
    unfold cleanupIdleSessions
    refine ⟨?_, ?_, ?_⟩
    · rw [List.mem_filter]
      refine ⟨hv, ?_⟩
      have hnot : id ∉ (σ.sessions.filter
          (cleanupDrop (t - σ.idleTimeout))).map Prod.fst := by
        intro hmem
        exact (alookup_eq_none_iff.mp hk)
          (List.map_subset Prod.fst (List.filter_subset' σ.sessions) hmem)
      simpa using hnot
    · exact alookup_filter_none _ hk
    · intro hmem
      exact ho ((foldl_erase_sublist _ σ.sessionOrder).subset hmem)
  | append t j role text =>
    have hne : j ≠ id := by
      simpa [appendsTo] using hop
    show id ∈ (appendMessage σ t j role text).1.validSessions ∧
      alookup (appendMessage σ t j role text).1.sessions id = none ∧
      id ∉ (appendMessage σ t j role text).1.sessionOrder
    by_cases hjv : j ∈ σ.validSessions
    · rcases hjl : alookup σ.sessions j with _ | session
      · rw [appendMessage_fresh hjv hjl]
        obtain ⟨hv', hk', ho'⟩ :=
          evictLoop_untouched σ.sessionOrder.length σ hv hk ho
        have hk1 : alookup (aupsert (evictLoop σ.sessionOrder.length σ).sessions j
            { messages := [], lastActive := t }) id = none := by
          rw [alookup_aupsert_ne _ (Ne.symm hne)]
          exact hk'
        have ho1 : id ∉ (evictLoop σ.sessionOrder.length σ).sessionOrder ++ [j] := by
          intro hmem
          rcases List.mem_append.mp hmem with hmem | hmem
          · exact ho' hmem
          · exact hne (List.mem_singleton.mp hmem).symm
        refine ⟨?_, ?_, ?_⟩
        · rw [appendChecked_valid_eq]
          exact hv'
        · rw [appendChecked_lookup_ne _ _ _ _ _ _ (Ne.symm hne)]
          exact hk1
        · rcases appendChecked_order { evictLoop σ.sessionOrder.length σ with
              sessions := aupsert (evictLoop σ.sessionOrder.length σ).sessions j
                { messages := [], lastActive := t }
              sessionOrder := (evictLoop σ.sessionOrder.length σ).sessionOrder ++ [j] }
              { messages := [], lastActive := t } t j role text with hord | hord
          · rw [hord]
            exact ho1
          · rw [hord]
            intro hmem
            rcases List.mem_append.mp hmem with hmem | hmem
            · exact ho1 ((List.erase_sublist j _).subset hmem)
            · exact hne (List.mem_singleton.mp hmem).symm
      · rw [appendMessage_existing hjv hjl]
        refine ⟨?_, ?_, ?_⟩
        · rw [appendChecked_valid_eq]
          exact hv
        · rw [appendChecked_lookup_ne _ _ _ _ _ _ (Ne.symm hne)]
          exact hk
        · rcases appendChecked_order σ session t j role text with hord | hord
          · rw [hord]
            exact ho
          · rw [hord]
            intro hmem
            rcases List.mem_append.mp hmem with hmem | hmem
            · exact ho ((List.erase_sublist j _).subset hmem)
            · exact hne (List.mem_singleton.mp hmem).symm
    · rw [appendMessage_not_valid hjv]
      exact ⟨hv, hk, ho⟩

theorem runOps_untouched {id : String} :
    ∀ (ops : List StoreOp) (σ : SessionStore),
      (∀ op ∈ ops, appendsTo op id = false) →
      id ∈ σ.validSessions → alookup σ.sessions id = none → id ∉ σ.sessionOrder →
      id ∈ (runOps σ ops).validSessions ∧
      alookup (runOps σ ops).sessions id = none ∧
      id ∉ (runOps σ ops).sessionOrder := by
  intro ops
  induction ops with
  | nil => exact fun σ _ hv hk ho => ⟨hv, hk, ho⟩
  | cons op rest ih =>
    intro σ hall hv hk ho
    obtain ⟨hv', hk', ho'⟩ :=
      runOp_untouched (hall op (List.mem_cons_self op rest)) hv hk ho
    exact ih (runOp σ op) (fun o hmem => hall o (List.mem_cons_of_mem op hmem)) hv' hk' ho'

theorem recordCall_limit (clock : Clock) (st : SpendingTracker) (apiKey : String) :
    (recordCall clock st apiKey).limit = st.limit := by
  unfold recordCall
  rcases alookup st.usage apiKey with _ | u
  · rfl
  · dsimp only
    by_cases h : u.date ≠ clock.localDate
    · rw [if_pos h]
    · rw [if_neg h]

theorem callsOn_le {st : SpendingTracker} (h : TrackerBound st)
    (apiKey : String) (d : Nat) : callsOn st apiKey d ≤ st.limit := by
  unfold callsOn
  rcases hl : alookup st.usage apiKey with _ | u
  · exact Nat.zero_le _
  · dsimp only
    by_cases hd : u.date = d
    · rw [if_pos hd]
      exact h (apiKey, u) (alookup_mem hl)
    · rw [if_neg hd]
      exact Nat.zero_le _

theorem recordCall_callsOn_self (clock : Clock) (st : SpendingTracker)
    (apiKey : String) :
    callsOn (recordCall clock st apiKey) apiKey clock.localDate =
      callsOn st apiKey clock.localDate + 1 := by
  unfold recordCall callsOn
  rcases hl : alookup st.usage apiKey with _ | u
  · dsimp only
    rw [alookup_aupsert_self]
    simp
  · dsimp only
    by_cases h : u.date ≠ clock.localDate
    · rw [if_pos h, alookup_aupsert_self]
      push_neg at h
      simp [h, Ne.symm h]
    · rw [if_neg h, alookup_aupsert_self]
      push_neg at h
      simp [h]

theorem recordCall_callsOn_other (clock : Clock) (st : SpendingTracker)
    {apiKey k2 : String} (hne : k2 ≠ apiKey) (d : Nat) :
    callsOn (recordCall clock st apiKey) k2 d = callsOn st k2 d := by
  unfold recordCall callsOn
  rcases hl : alookup st.usage apiKey with _ | u
  · dsimp only
    rw [alookup_aupsert_ne _ hne]
  · dsimp only
    by_cases h : u.date ≠ clock.localDate
    · rw [if_pos h, alookup_aupsert_ne _ hne]
    · rw [if_neg h, alookup_aupsert_ne _ hne]

theorem recordCall_other_date (clock : Clock) (st : SpendingTracker)
    (apiKey : String) {d : Nat} (hne : clock.localDate ≠ d) :
    callsOn (recordCall clock st apiKey) apiKey d = 0 := by
  unfold recordCall callsOn
  rcases hl : alookup st.usage apiKey with _ | u
  · dsimp only
    rw [alookup_aupsert_self]
    simp [hne]
  · dsimp only
    by_cases h : u.date ≠ clock.localDate
    · rw [if_pos h, alookup_aupsert_self]
      simp [hne]
    · rw [if_neg h, alookup_aupsert_self]
      push_neg at h
      simp [h, hne]

theorem recordCall_bound {clock : Clock} {st : SpendingTracker} {apiKey : String}
    (hcan : canMakeCall clock st apiKey = true) (hb : TrackerBound st)
    (hlim : 1 ≤ st.limit) : TrackerBound (recordCall clock st apiKey) := by
  intro p hp
  rw [recordCall_limit]
  unfold recordCall at hp
  rcases hl : alookup st.usage apiKey with _ | u
  · rw [hl] at hp
    dsimp only at hp
    rcases mem_aupsert hp with hp1 | hp1
    · rw [hp1]
      exact hlim
    · exact hb p hp1
  · rw [hl] at hp
    dsimp only at hp
    unfold canMakeCall at hcan
    rw [hl] at hcan
    dsimp only at hcan
    by_cases h : u.date ≠ clock.localDate
    · rw [if_pos h] at hp
      rcases mem_aupsert hp with hp1 | hp1
      · rw [hp1]
        exact hlim
      · exact hb p hp1
    · rw [if_neg h] at hp
      rw [if_neg h] at hcan
      have hlt : u.calls < st.limit := of_decide_eq_true hcan
      rcases mem_aupsert hp with hp1 | hp1
      · rw [hp1]
        exact hlt
      · exact hb p hp1

/-- Every run of the interceptor either leaves the tracker untouched and does
not invoke an authenticated handler, or commits `RecordCall` for the resolved
key — after `CanMakeCall` succeeded — before the handler runs. -/
theorem authInterceptor_cases (apiKeys : List (String × String))
    (st : SpendingTracker) (req : AuthRequest) :
    ((authInterceptor apiKeys st req).1 = st ∧
      ∀ k kr : String, (authInterceptor apiKeys st req).2 ≠ .handler k kr) ∨
    (∃ k kr : String, (authInterceptor apiKeys st req).2 = .handler k kr ∧
      (authInterceptor apiKeys st req).1 = recordCall req.clock st k ∧
      canMakeCall req.clock st k = true) := by
  unfold authInterceptor
  split
  · exact Or.inl ⟨rfl, by simp⟩
  · split
    · exact Or.inl ⟨rfl, by simp⟩
    · split
      · exact Or.inl ⟨rfl, by simp⟩
      · split
        · exact Or.inl ⟨rfl, by simp⟩
        · split
          · exact Or.inl ⟨rfl, by simp⟩
          · split
            · exact Or.inl ⟨rfl, by simp⟩
            · split
              · exact Or.inl ⟨rfl, by simp⟩
              · split
                case _ hcan => exact Or.inl ⟨rfl, by simp⟩
                case _ tok rest hlook role hrole hcan =>
                  refine Or.inr ⟨_, _, rfl, rfl, ?_⟩
                  simpa using hcan

theorem authInterceptor_limit (apiKeys : List (String × String))
    (st : SpendingTracker) (req : AuthRequest) :
    (authInterceptor apiKeys st req).1.limit = st.limit := by
  rcases authInterceptor_cases apiKeys st req with ⟨hst, _⟩ | ⟨k, kr, _, hst, _⟩
  · rw [hst]
  · rw [hst, recordCall_limit]

theorem authInterceptor_bound {apiKeys : List (String × String)}
    {st : SpendingTracker} {req : AuthRequest}
    (hb : TrackerBound st) (hlim : 1 ≤ st.limit) :
    TrackerBound (authInterceptor apiKeys st req).1 := by
  rcases authInterceptor_cases apiKeys st req with ⟨hst, _⟩ | ⟨k, kr, _, hst, hcan⟩
  · rw [hst]
    exact hb
  · rw [hst]
    exact recordCall_bound hcan hb hlim

theorem countAdmits_zero {apiKeys : List (String × String)} {apiKey : String}
    {d : Nat} :
    ∀ (reqs : List AuthRequest) (st : SpendingTracker),
      (∀ r ∈ reqs, r.clock.localDate ≠ d) →
      countAdmits apiKeys apiKey d st reqs = 0 := by
  intro reqs
  induction reqs with
  | nil => intro st _; rfl
  | cons r rest ih =>
    intro st hall
    unfold countAdmits
    rw [ih _ (fun x hx => hall x (List.mem_cons_of_mem r hx))]
    have hd : (r.clock.localDate == d) = false := by
      simpa using hall r (List.mem_cons_self r rest)
    simp [hd]

theorem countAdmits_tail_bound {apiKeys : List (String × String)}
    {apiKey : String} {d : Nat} :
    ∀ (reqs : List AuthRequest) (st : SpendingTracker),
      TrackerBound st → 1 ≤ st.limit →
      reqs.Pairwise (fun a b => a.clock.localDate ≤ b.clock.localDate) →
      (∀ r ∈ reqs, d ≤ r.clock.localDate) →
      countAdmits apiKeys apiKey d st reqs + callsOn st apiKey d ≤ st.limit := by
  intro reqs
  induction reqs with
  | nil =>
    intro st hb _ _ _
    have h0 : countAdmits apiKeys apiKey d st [] = 0 := rfl
    rw [h0, Nat.zero_add]
    exact callsOn_le hb apiKey d
  | cons r rest ih =>
    intro st hb hlim hsorted hge
    have hpc := List.pairwise_cons.mp hsorted
    unfold countAdmits
    rcases authInterceptor_cases apiKeys st r with ⟨hst, hnh⟩ | ⟨k, kr, hout, hst, hcan⟩
    · have hind : (authInterceptor apiKeys st r).2.isHandlerFor apiKey = false := by
        rcases hres : (authInterceptor apiKeys st r).2 with _ | ⟨k2, kr2⟩ | c
        · rfl
        · exact absurd hres (hnh k2 kr2)
        · rfl
      rw [hst, hind]
      have hih := ih st hb hlim hpc.2 (fun x hx => hge x (List.mem_cons_of_mem r hx))
      simpa using hih
    · rw [hst, hout]
      by_cases hkey : k = apiKey
      · subst hkey
        by_cases hdate : r.clock.localDate = d
        · have hb2 := recordCall_bound hcan hb hlim
          have hlim2 : 1 ≤ (recordCall r.clock st k).limit := by
            rw [recordCall_limit]
            exact hlim
          have hih := ih (recordCall r.clock st k) hb2 hlim2 hpc.2
            (fun x hx => hge x (List.mem_cons_of_mem r hx))
          rw [recordCall_limit] at hih
          have hrec := recordCall_callsOn_self r.clock st k
          rw [hdate] at hrec
          rw [hrec] at hih
          have hone : (if (AuthOutcome.handler k kr).isHandlerFor k
              && (r.clock.localDate == d) then 1 else 0) = 1 := by
            simp [AuthOutcome.isHandlerFor, hdate]
          rw [hone]
          omega
        · have hgt : d < r.clock.localDate :=
            lt_of_le_of_ne (hge r (List.mem_cons_self r rest)) (Ne.symm hdate)
          have hrest0 : countAdmits apiKeys k d (recordCall r.clock st k) rest = 0 := by
            apply countAdmits_zero
            intro x hx
            have := hpc.1 x hx
            omega
          rw [hrest0]
          have hzero : (if (AuthOutcome.handler k kr).isHandlerFor k
              && (r.clock.localDate == d) then 1 else 0) = 0 := by
            simp [AuthOutcome.isHandlerFor, hdate]
          rw [hzero]
          simpa using callsOn_le hb k d
      · have hind : (AuthOutcome.handler k kr).isHandlerFor apiKey = false := by
          simpa [AuthOutcome.isHandlerFor] using hkey
        rw [hind]
        have hb2 := recordCall_bound hcan hb hlim
        have hlim2 : 1 ≤ (recordCall r.clock st k).limit := by
          rw [recordCall_limit]
          exact hlim
        have hih := ih (recordCall r.clock st k) hb2 hlim2 hpc.2
          (fun x hx => hge x (List.mem_cons_of_mem r hx))
        rw [recordCall_limit] at hih
        rw [recordCall_callsOn_other r.clock st (fun he => hkey he.symm) d] at hih
        simpa using hih

theorem countAdmits_le_limit {apiKeys : List (String × String)}
    {apiKey : String} {d : Nat} :
    ∀ (reqs : List AuthRequest) (st : SpendingTracker),
      TrackerBound st → 1 ≤ st.limit →
      reqs.Pairwise (fun a b => a.clock.localDate ≤ b.clock.localDate) →
      countAdmits apiKeys apiKey d st reqs ≤ st.limit := by
  intro reqs
  induction reqs with
  | nil => intro st _ _ _; exact Nat.zero_le _
  | cons r rest ih =>
    intro st hb hlim hsorted
    have hpc := List.pairwise_cons.mp hsorted
    by_cases hge : d ≤ r.clock.localDate
    · have hall : ∀ x ∈ r :: rest, d ≤ x.clock.localDate := by
        intro x hx
        rcases List.mem_cons.mp hx with hx | hx
        · exact hx ▸ hge
        · exact le_trans hge (hpc.1 x hx)
      have := @countAdmits_tail_bound apiKeys apiKey d (r :: rest) st hb hlim hsorted hall
      omega
    · have hlt : r.clock.localDate < d := Nat.lt_of_not_le hge
      unfold countAdmits
      have hd : (r.clock.localDate == d) = false := by
        simp only [beq_eq_false_iff_ne, ne_eq]
        omega
      rw [hd]
      have hb2 := @authInterceptor_bound apiKeys st r hb hlim
      have hlim2 : 1 ≤ (authInterceptor apiKeys st r).1.limit := by
        rw [authInterceptor_limit]
        exact hlim
      have hih := ih (authInterceptor apiKeys st r).1 hb2 hlim2 hpc.2
      rw [authInterceptor_limit] at hih
      simpa using hih

/-! ### Claim theorems -/

/-- C8: the sanitiser is idempotent: `sanitise(sanitise(x)) = sanitise(x)`
for every input, both on rune sequences and on whole strings.  The output
never contains ESC (it is below 0x20), so a second pass finds no ANSI match
and nothing left to filter. -/
theorem C8_sanitizer_idempotent :
    (∀ l : List Char,
      sanitizeForTerminal (sanitizeForTerminal l) = sanitizeForTerminal l) ∧
    (∀ s : String, sanitizeString (sanitizeString s) = sanitizeString s) := by
  refine ⟨sanitize_idempotent_aux, ?_⟩
  intro s
  unfold sanitizeString
  exact congrArg String.mk (sanitize_idempotent_aux s.data)

/-- C4 counterexample: the claim says every remaining C0/C1 control except
\n, \t, \r is removed, but the filter keeps every rune ≥ 0x20: the C1
control U+009B (CSI) and DEL (U+007F) both survive sanitisation unchanged. -/
theorem C4_counterexample :
    0x80 ≤ (Char.ofNat 0x9b).toNat ∧ (Char.ofNat 0x9b).toNat ≤ 0x9f ∧
    sanitizeForTerminal [Char.ofNat 0x9b] = [Char.ofNat 0x9b] ∧
    sanitizeForTerminal [Char.ofNat 0x7f] = [Char.ofNat 0x7f] := by
  decide

/-- C4 (amended): the sanitiser first deletes every substring matching
`\x1b\[[0-9;]*[a-zA-Z]` and then removes exactly the remaining C0 control
characters (code points < 0x20) other than \n, \t, \r; every surviving
character is ≥ 0x20 or one of \n, \t, \r, the output is a subsequence of the
input (all other code points — DEL and the C1 range included — are left
unchanged, in order), and the sanitiser is the identity on every string
containing only code points ≥ 0x20 plus \n, \t, \r. -/
theorem C4_sanitizer_amended (l : List Char) :
    (sanitizeForTerminal l).Sublist l ∧
    (∀ c ∈ sanitizeForTerminal l, 32 ≤ c.toNat ∨ c = '\n' ∨ c = '\t' ∨ c = '\r') ∧
    (∀ c : Char, c.toNat < 32 → c ≠ '\n' → c ≠ '\t' → c ≠ '\r' →
      c ∉ sanitizeForTerminal l) ∧
    ((∀ c ∈ l, 32 ≤ c.toNat ∨ c = '\n' ∨ c = '\t' ∨ c = '\r') →
      sanitizeForTerminal l = l) := by
  have hkeep_iff : ∀ c : Char,
      keepChar c = true ↔ (32 ≤ c.toNat ∨ c = '\n' ∨ c = '\t' ∨ c = '\r') := by
    intro c
    simp [keepChar, Bool.or_eq_true, decide_eq_true_iff, beq_iff_eq, or_assoc]
  refine ⟨sanitize_sublist l, ?_, ?_, ?_⟩
  · intro c hc
    exact (hkeep_iff c).mp (mem_sanitize_keep hc)
  · intro c hlt hn ht hr hc
    rcases (hkeep_iff c).mp (mem_sanitize_keep hc) with h | h | h | h
    · omega
    · exact hn h
    · exact ht h
    · exact hr h
  · intro hsafe
    refine sanitize_of_all_kept ?_ ?_
    · intro c hc he
      rcases hsafe c hc with h | h | h | h
      · rw [he] at h
        revert h
        decide
      · rw [he] at h
        revert h
        decide
      · rw [he] at h
        revert h
        decide
      · rw [he] at h
        revert h
        decide
    · intro c hc
      exact (hkeep_iff c).mpr (hsafe c hc)

theorem C4_sanitizer_amended_witness :
    sanitizeForTerminal ['a', '\n'] = ['a', '\n'] :=
  (C4_sanitizer_amended ['a', '\n']).2.2.2 (by decide)

/-- C5 counterexample: at an instant whose server-local calendar day
(20261011) differs from its UTC day (20261012) — the server west of UTC late
in the evening — with a stored entry `{date 20261012, calls 5}` and LIMIT 5,
the implementation's `CanMakeCall` (keyed on the local day) answers true
while the claim's UTC-day reading answers false. -/
theorem C5_counterexample :
    canMakeCall { localDate := 20261011, utcDate := 20261012 }
      { usage := [("k", { date := 20261012, calls := 5 })], limit := 5 } "k" = true ∧
    canMakeCallSpecUTC { localDate := 20261011, utcDate := 20261012 }
      { usage := [("k", { date := 20261012, calls := 5 })], limit := 5 } "k" = false := by
  decide

/-- C5 (amended): the quota tracker interprets "today" as the calendar day
in the server's local time zone (`time.Now().Format("2006-01-02")` without
`.UTC()`), which coincides with the UTC day only when the server runs in
UTC: `CanMakeCall(id)` returns true iff there is no entry for id, the
entry's day differs from the current local date, or the entry's call count
is below LIMIT; and `RecordCall(id)` stores `{current local date, 1}` when
the entry is absent or its day differs from the current local date, and
otherwise increments the call count in place, leaving other keys
untouched and the limit unchanged. -/
theorem C5_quota_local_day (clock : Clock) (st : SpendingTracker) (apiKey : String) :
    (canMakeCall clock st apiKey = true ↔
      alookup st.usage apiKey = none ∨
      (∃ u, alookup st.usage apiKey = some u ∧
        (u.date ≠ clock.localDate ∨ u.calls < st.limit))) ∧
    (alookup (recordCall clock st apiKey).usage apiKey =
      some (match alookup st.usage apiKey with
            | some u => if u.date = clock.localDate
                then { date := u.date, calls := u.calls + 1 }
                else { date := clock.localDate, calls := 1 }
            | none => { date := clock.localDate, calls := 1 })) ∧
    (∀ k2 : String, k2 ≠ apiKey →
      alookup (recordCall clock st apiKey).usage k2 = alookup st.usage k2) ∧
    (recordCall clock st apiKey).limit = st.limit := by
  refine ⟨?_, ?_, ?_, recordCall_limit clock st apiKey⟩
  · unfold canMakeCall
    rcases hl : alookup st.usage apiKey with _ | u
    · simp
    · dsimp only
      by_cases hd : u.date ≠ clock.localDate
      · simp [hd]
      · push_neg at hd
        simp [hd]
  · unfold recordCall
    rcases hl : alookup st.usage apiKey with _ | u
    · dsimp only
      rw [alookup_aupsert_self]
    · dsimp only
      by_cases hd : u.date ≠ clock.localDate
      · rw [if_pos hd, alookup_aupsert_self]
        push_neg at hd
        simp [if_neg (by simpa using hd)]
      · rw [if_neg hd, alookup_aupsert_self]
        push_neg at hd
        simp [hd]
  · intro k2 hne
    unfold recordCall
    rcases hl : alookup st.usage apiKey with _ | u
    · dsimp only
      rw [alookup_aupsert_ne _ hne]
    · dsimp only
      by_cases hd : u.date ≠ clock.localDate
      · rw [if_pos hd, alookup_aupsert_ne _ hne]
      · rw [if_neg hd, alookup_aupsert_ne _ hne]

theorem C5_quota_local_day_witness :
    alookup (recordCall { localDate := 1, utcDate := 1 }
      { usage := [], limit := 5 } "k").usage "a" = none := by
  have h := (C5_quota_local_day { localDate := 1, utcDate := 1 }
    { usage := [], limit := 5 } "k").2.2.1 "a" (by decide)
  rw [h]
  rfl

/-- C9 counterexample: with MAX_SESSIONS 1 and MAX_SESSION_SIZE_BYTES 30,
register "a"; an append of "hello" to "a" fails the size check yet
materialises an empty session (stored-session count rises 0 → 1); then
register "b" and append the empty string to "b", which succeeds by evicting
"a".  "a" was never successfully appended to, yet "a" has left the valid
set, and the failed append changed the stored-session count. -/
theorem C9_counterexample :
    (appendMessage (registerSession (newSessionStore 100 1 10 30) "a")
        0 "a" .user "hello").2 = some .sizeLimit ∧
    (appendMessage (registerSession (appendMessage
        (registerSession (newSessionStore 100 1 10 30) "a")
        0 "a" .user "hello").1 "b") 1 "b" .user "").2 = none ∧
    "a" ∈ (registerSession (newSessionStore 100 1 10 30) "a").validSessions ∧
    "a" ∉ (appendMessage (registerSession (appendMessage
        (registerSession (newSessionStore 100 1 10 30) "a")
        0 "a" .user "hello").1 "b") 1 "b" .user "").1.validSessions ∧
    (registerSession (newSessionStore 100 1 10 30) "a").sessions.length = 0 ∧
    (appendMessage (registerSession (newSessionStore 100 1 10 30) "a")
        0 "a" .user "hello").1.sessions.length = 1 := by
  decide

/-- C9 (amended): a session id registered valid on which `AppendMessage` is
never called — not merely never *successfully* appended to, since a failed
append still materialises a session — stays in the valid set and out of the
session map and LRU order through every subsequent store operation, and the
registration itself leaves the session map, the LRU order and the
stored-session count unchanged. -/
theorem C9_untouched_amended (σ0 : SessionStore) (id : String)
    (ops : List StoreOp)
    (hk : alookup σ0.sessions id = none) (ho : id ∉ σ0.sessionOrder)
    (hall : ∀ op ∈ ops, appendsTo op id = false) :
    (registerSession σ0 id).sessions = σ0.sessions ∧
    (registerSession σ0 id).sessionOrder = σ0.sessionOrder ∧
    getSessionCount (registerSession σ0 id) = getSessionCount σ0 ∧
    id ∈ (runOps (registerSession σ0 id) ops).validSessions ∧
    alookup (runOps (registerSession σ0 id) ops).sessions id = none ∧
    id ∉ (runOps (registerSession σ0 id) ops).sessionOrder := by
  have hvr : id ∈ (registerSession σ0 id).validSessions := by
    unfold registerSession
    split
    case _ hmem => exact hmem
    case _ hmem => exact List.mem_append_right _ (List.mem_singleton.mpr rfl)
  obtain ⟨h1, h2, h3⟩ := runOps_untouched ops (registerSession σ0 id) hall hvr hk ho
  exact ⟨rfl, rfl, rfl, h1, h2, h3⟩

theorem C9_untouched_amended_witness :
    "a" ∈ (runOps (registerSession (newSessionStore 100 5 10 1000) "a")
      [.register "b", .append 1 "b" .user "x", .cleanup 500]).validSessions := by
  have h := C9_untouched_amended (newSessionStore 100 5 10 1000) "a"
    [.register "b", .append 1 "b" .user "x", .cleanup 500]
    (by decide) (by decide) (by decide)
  exact h.2.2.2.1

/-- C7: a request the admission pipeline admits (the chain reached
`CanMakeCall` and it returned true) has `RecordCall` committed before the
handler runs: the tracker handed to whatever follows is exactly
`recordCall` of the prior state — fixed before, and so independent of, any
downstream failure — and the identity's count for the current (local)
calendar day rises by one.  Consequently, processing any sequential trace of
requests with nondecreasing dates from a fresh tracker whose configured
daily limit is positive, an identity is admitted at most `DAILY_CALL_LIMIT`
times within one calendar day. -/
theorem C7_quota_admission :
    (∀ (apiKeys : List (String × String)) (st : SpendingTracker)
       (req : AuthRequest) (st2 : SpendingTracker) (k kr : String),
      authInterceptor apiKeys st req = (st2, .handler k kr) →
      canMakeCall req.clock st k = true ∧ st2 = recordCall req.clock st k ∧
      callsOn st2 k req.clock.localDate = callsOn st k req.clock.localDate + 1) ∧
    (∀ (apiKeys : List (String × String)) (apiKey : String) (d : Nat)
       (dailyLimit : Nat) (reqs : List AuthRequest),
      1 ≤ dailyLimit →
      reqs.Pairwise (fun a b => a.clock.localDate ≤ b.clock.localDate) →
      countAdmits apiKeys apiKey d (newSpendingTracker dailyLimit) reqs ≤ dailyLimit) := by
  constructor
  · intro apiKeys st req st2 k kr h
    rcases authInterceptor_cases apiKeys st req with ⟨hst, hnh⟩ | ⟨k2, kr2, hout, hst, hcan⟩
    · exact absurd (by rw [h]) (hnh k kr)
    · rw [h] at hout hst
      simp only at hout hst
      injection hout with hk hkr
      subst hk
      refine ⟨hcan, hst, ?_⟩
      rw [hst]
      exact recordCall_callsOn_self req.clock st k
  · intro apiKeys apiKey d dailyLimit reqs hlim hsorted
    have hb : TrackerBound (newSpendingTracker dailyLimit) := by
      intro p hp
      simp [newSpendingTracker] at hp
    exact countAdmits_le_limit reqs (newSpendingTracker dailyLimit) hb hlim hsorted

theorem C7_quota_admission_witness :
    (canMakeCall { localDate := 7, utcDate := 7 } (newSpendingTracker 1) "k" = true ∧
      { usage := [("k", { date := 7, calls := 1 })], limit := 1 } =
        recordCall { localDate := 7, utcDate := 7 } (newSpendingTracker 1) "k" ∧
      callsOn { usage := [("k", { date := 7, calls := 1 })], limit := 1 } "k" 7 =
        callsOn (newSpendingTracker 1) "k" 7 + 1) ∧
    countAdmits [("k", "user")] "k" 7 (newSpendingTracker 1)
      [{ fullMethod := "/chat.ChatService/Chat", mdPresent := true,
         authHeader := ["Bearer k"], clock := { localDate := 7, utcDate := 7 } },
       { fullMethod := "/chat.ChatService/Chat", mdPresent := true,
         authHeader := ["Bearer k"], clock := { localDate := 7, utcDate := 7 } }] ≤ 1 := by
  constructor
  · exact C7_quota_admission.1 [("k", "user")] (newSpendingTracker 1)
      { fullMethod := "/chat.ChatService/Chat", mdPresent := true,
        authHeader := ["Bearer k"], clock := { localDate := 7, utcDate := 7 } }
      { usage := [("k", { date := 7, calls := 1 })], limit := 1 } "k" "user" (by decide)
  · exact C7_quota_admission.2 [("k", "user")] "k" 7 1 _ (by decide) (by decide)

/-- C1 counterexample: a Chat call whose provider fails all three tries with
a plain transient error.  The provider's terminal error carries the
canonical code (`unavailable`), but the handler re-wraps it: the
client-visible status is `internal` — not cancelled, deadline-exceeded or
unavailable as the claim states. -/
theorem C1_counterexample :
    generateResponse
        (getMessagesAsLLMFormat
          (appendMessage (registerSession (newSessionStore 1000 10 10 1000) "s")
            0 "s" .user "hi").1 "s")
        [{ canceledBefore := false, result := .error (.plain "boom"),
           timedOut := false, canceledAfter := false },
         { canceledBefore := false, result := .error (.plain "boom"),
           timedOut := false, canceledAfter := false },
         { canceledBefore := false, result := .error (.plain "boom"),
           timedOut := false, canceledAfter := false }] =
      .error (.statusErr .unavailable "Gemini API failed after 3 attempts: boom") ∧
    (chat (fun _ => true) (registerSession (newSessionStore 1000 10 10 1000) "s")
        { sessionId := "s", message := "hi", messageIndex := 0 } 0 1
        (fun msgs => generateResponse msgs
          [{ canceledBefore := false, result := .error (.plain "boom"),
             timedOut := false, canceledAfter := false },
           { canceledBefore := false, result := .error (.plain "boom"),
             timedOut := false, canceledAfter := false },
           { canceledBefore := false, result := .error (.plain "boom"),
             timedOut := false, canceledAfter := false }]) 51200).2 =
      .err .internal ("LLM provider failed: rpc error: code = Unavailable desc = " ++
        "Gemini API failed after 3 attempts: boom") ∧
    (StatusCode.internal ≠ .canceled ∧ StatusCode.internal ≠ .deadlineExceeded ∧
      StatusCode.internal ≠ .unavailable) := by
  decide

/-- C1 (amended): when the provider's Generate fails, the handler recovers
nothing locally but also does not surface the provider's canonical status —
every provider error reaches the client as `internal` with message
`LLM provider failed: <err>`.  The canonical taxonomy holds one level down,
in the provider itself: with the caller already cancelled it returns
`cancelled`; when every try fails and each failing try hit its per-try
timeout it returns `deadline-exceeded`; and when every try fails with plain
non-status errors it returns `unavailable`. -/
theorem C1_handler_internal_amended :
    (∀ (uuidParse : String → Bool) (σ : SessionStore) (req : ChatRequest)
       (t1 t2 : Int) (gen : List LLMMessage → Except GoErr String)
       (maxResponseSize : Nat) (σ1 : SessionStore) (e : GoErr),
      req.sessionId ≠ "" → uuidParse req.sessionId = true → req.message ≠ "" →
      req.message.utf8ByteSize ≤ 10240 → req.sessionId ∈ σ.validSessions →
      appendMessage σ t1 req.sessionId .user req.message = (σ1, none) →
      gen (getMessagesAsLLMFormat σ1 req.sessionId) = .error e →
      chat uuidParse σ req t1 t2 gen maxResponseSize =
        (σ1, .err .internal ("LLM provider failed: " ++ errString e))) ∧
    (∀ (msgs : List LLMMessage) (env1 : AttemptEnv) (rest : List AttemptEnv),
      msgs ≠ [] → env1.canceledBefore = true →
      generateResponse msgs (env1 :: rest) =
        .error (.statusErr .canceled "request cancelled")) ∧
    (∀ (msgs : List LLMMessage) (e1 e2 e3 : AttemptEnv), msgs ≠ [] →
      (∀ env ∈ [e1, e2, e3], env.canceledBefore = false ∧ env.timedOut = true ∧
        ∃ ge, env.result = .error ge) →
      generateResponse msgs [e1, e2, e3] =
        .error (.statusErr .deadlineExceeded "Gemini API timeout")) ∧
    (∀ (msgs : List LLMMessage) (e1 e2 e3 : AttemptEnv), msgs ≠ [] →
      (∀ env ∈ [e1, e2, e3], env.canceledBefore = false ∧ env.timedOut = false ∧
        env.canceledAfter = false ∧ ∃ m, env.result = .error (.plain m)) →
      ∃ m2, generateResponse msgs [e1, e2, e3] =
        .error (.statusErr .unavailable m2)) := by
  have hlen : ∀ msgs : List LLMMessage, msgs ≠ [] → ¬ msgs.length = 0 := by
    intro msgs h h0
    exact h (List.length_eq_zero.mp h0)
  refine ⟨?_, ?_, ?_, ?_⟩
  · intro uuidParse σ req t1 t2 gen maxResponseSize σ1 e h1 h2 h3 h4 h5 happ hgen
    unfold chat
    rw [if_neg h1]
    rw [if_neg (by simp [h2])]
    rw [if_neg h3]
    rw [if_neg (by omega)]
    rw [if_neg (by simp [isValidSession, h5])]
    rw [happ]
    dsimp only
    rw [hgen]
  · intro msgs env1 rest hne hcb
    unfold generateResponse
    rw [if_neg (hlen msgs hne)]
    unfold genLoop
    rw [if_pos hcb]
  · intro msgs e1 e2 e3 hne hall
    obtain ⟨hc1, ht1, g1, hr1⟩ := hall e1 (by simp)
    obtain ⟨hc2, ht2, g2, hr2⟩ := hall e2 (by simp)
    obtain ⟨hc3, ht3, g3, hr3⟩ := hall e3 (by simp)
    unfold generateResponse
    rw [if_neg (hlen msgs hne)]
    unfold genLoop
    rw [if_neg (by simp [hc1]), hr1]
    dsimp only
    rw [if_pos ht1]
    unfold genLoop
    rw [if_neg (by simp [hc2]), hr2]
    dsimp only
    rw [if_pos ht2]
    unfold genLoop
    rw [if_neg (by simp [hc3]), hr3]
    dsimp only
    rw [if_pos ht3]
    rfl
  · intro msgs e1 e2 e3 hne hall
    obtain ⟨hc1, ht1, ha1, m1, hr1⟩ := hall e1 (by simp)
    obtain ⟨hc2, ht2, ha2, m2, hr2⟩ := hall e2 (by simp)
    obtain ⟨hc3, ht3, ha3, m3, hr3⟩ := hall e3 (by simp)
    refine ⟨"Gemini API failed after 3 attempts: " ++ m3, ?_⟩
    unfold generateResponse
    rw [if_neg (hlen msgs hne)]
    unfold genLoop
    rw [if_neg (by simp [hc1]), hr1]
    dsimp only
    rw [if_neg (by simp [ht1]), if_neg (by simp [ha1])]
    unfold genLoop
    rw [if_neg (by simp [hc2]), hr2]
    dsimp only
    rw [if_neg (by simp [ht2]), if_neg (by simp [ha2])]
    unfold genLoop
    rw [if_neg (by simp [hc3]), hr3]
    dsimp only
    rw [if_neg (by simp [ht3]), if_neg (by simp [ha3])]
    rfl

theorem C1_handler_internal_amended_witness :
    chat (fun _ => true) (registerSession (newSessionStore 1000 10 10 1000) "s")
      { sessionId := "s", message := "hi", messageIndex := 0 } 0 1
      (fun _ => .error (.plain "x")) 51200 =
    ((appendMessage (registerSession (newSessionStore 1000 10 10 1000) "s")
        0 "s" .user "hi").1, .err .internal "LLM provider failed: x") :=
  C1_handler_internal_amended.1 (fun _ => true)
    (registerSession (newSessionStore 1000 10 10 1000) "s")
    { sessionId := "s", message := "hi", messageIndex := 0 } 0 1
    (fun _ => .error (.plain "x")) 51200
    (appendMessage (registerSession (newSessionStore 1000 10 10 1000) "s")
      0 "s" .user "hi").1 (.plain "x")
    (by decide) rfl (by decide) (by decide) (by decide) (by decide) rfl

/-- C3: in every reachable store the number of stored sessions is at most
`maxSessions`; and when `AppendMessage` materialises a new session while the
store is at capacity, the evicted session is the LRU head — whose
`last_active` is least among all stored sessions — it is removed from both
the session map and the valid set, and the stored key set afterwards equals
the previous one minus that session plus the new id. -/
theorem C3_capacity_eviction {σ : SessionStore} {t : Int} (hr : Reachable σ t) :
    σ.sessions.length ≤ σ.maxSessions ∧
    (∀ (t2 : Int) (id : String) (role : Role) (text : String),
      id ∈ σ.validSessions → alookup σ.sessions id = none →
      σ.sessions.length = σ.maxSessions →
      ∃ ev rest, σ.sessionOrder = ev :: rest ∧
        (∀ p ∈ σ.sessions, activeOf σ ev ≤ (Prod.snd p).lastActive) ∧
        ev ≠ id ∧
        alookup (appendMessage σ t2 id role text).1.sessions ev = none ∧
        ev ∉ (appendMessage σ t2 id role text).1.validSessions ∧
        (∀ j : String, (alookup (appendMessage σ t2 id role text).1.sessions j).isSome ↔
          (((alookup σ.sessions j).isSome ∧ j ≠ ev) ∨ j = id)) ∧
        (appendMessage σ t2 id role text).1.sessions.length = σ.maxSessions) :=
  ⟨(reachable_inv hr).sizeBound,
   fun t2 id role text hv hsl hcap =>
     appendMessage_at_capacity (reachable_inv hr) t2 id role text hv hsl hcap⟩

theorem C3_capacity_eviction_witness :
    (registerSession ((appendMessage (registerSession
        (newSessionStore 0 1 5 100) "a") 0 "a" .user "x").1) "b").sessions.length ≤
      (registerSession ((appendMessage (registerSession
        (newSessionStore 0 1 5 100) "a") 0 "a" .user "x").1) "b").maxSessions ∧
    (∃ ev rest,
      (registerSession ((appendMessage (registerSession
        (newSessionStore 0 1 5 100) "a") 0 "a" .user "x").1) "b").sessionOrder =
        ev :: rest ∧
      (∀ p ∈ (registerSession ((appendMessage (registerSession
          (newSessionStore 0 1 5 100) "a") 0 "a" .user "x").1) "b").sessions,
        activeOf (registerSession ((appendMessage (registerSession
          (newSessionStore 0 1 5 100) "a") 0 "a" .user "x").1) "b") ev ≤
          (Prod.snd p).lastActive) ∧
      ev ≠ "b" ∧
      alookup (appendMessage (registerSession ((appendMessage (registerSession
          (newSessionStore 0 1 5 100) "a") 0 "a" .user "x").1) "b")
          1 "b" .user "y").1.sessions ev = none ∧
      ev ∉ (appendMessage (registerSession ((appendMessage (registerSession
          (newSessionStore 0 1 5 100) "a") 0 "a" .user "x").1) "b")
          1 "b" .user "y").1.validSessions ∧
      (∀ j : String, (alookup (appendMessage (registerSession ((appendMessage
          (registerSession (newSessionStore 0 1 5 100) "a") 0 "a" .user "x").1) "b")
          1 "b" .user "y").1.sessions j).isSome ↔
        (((alookup (registerSession ((appendMessage (registerSession
            (newSessionStore 0 1 5 100) "a") 0 "a" .user "x").1) "b").sessions j).isSome ∧
          j ≠ ev) ∨ j = "b")) ∧
      (appendMessage (registerSession ((appendMessage (registerSession
          (newSessionStore 0 1 5 100) "a") 0 "a" .user "x").1) "b")
          1 "b" .user "y").1.sessions.length =
        (registerSession ((appendMessage (registerSession
          (newSessionStore 0 1 5 100) "a") 0 "a" .user "x").1) "b").maxSessions) := by
  have hreach : Reachable (registerSession ((appendMessage (registerSession
      (newSessionStore 0 1 5 100) "a") 0 "a" .user "x").1) "b") 0 :=
    Reachable.register (Reachable.append (Reachable.register
      (Reachable.init 0 1 5 100 0 (by decide) (by decide)) "a")
      (by decide) "a" .user "x") "b"
  have h := C3_capacity_eviction hreach
  exact ⟨h.1, h.2 1 "b" .user "y" (by decide) (by decide) (by decide)⟩

/-- The eviction loop does not change the configured limits. -/
theorem evictLoop_limits : ∀ (fuel : Nat) (σ : SessionStore),
    (evictLoop fuel σ).maxSessions = σ.maxSessions ∧
    (evictLoop fuel σ).maxMessagesPerSession = σ.maxMessagesPerSession ∧
    (evictLoop fuel σ).maxSessionSizeBytes = σ.maxSessionSizeBytes := by
  intro fuel
  induction fuel with
  | zero => exact fun σ => ⟨rfl, rfl, rfl⟩
  | succ n ih =>
    intro σ
    by_cases hcond : σ.maxSessions ≤ σ.sessions.length
    · rw [show evictLoop (n + 1) σ = evictLoop n (evictOldestSession σ) by
        simp [evictLoop, hcond]]
      have hev : (evictOldestSession σ).maxSessions = σ.maxSessions ∧
          (evictOldestSession σ).maxMessagesPerSession = σ.maxMessagesPerSession ∧
          (evictOldestSession σ).maxSessionSizeBytes = σ.maxSessionSizeBytes := by
        unfold evictOldestSession
        cases σ.sessionOrder with
        | nil => exact ⟨rfl, rfl, rfl⟩
        | cons a l => exact ⟨rfl, rfl, rfl⟩
      obtain ⟨h1, h2, h3⟩ := ih (evictOldestSession σ)
      exact ⟨h1.trans hev.1, h2.trans hev.2.1, h3.trans hev.2.2⟩
    · rw [evictLoop_stops hcond]
      exact ⟨rfl, rfl, rfl⟩

/-- C10: calling `AppendMessage` with a valid but unmaterialised id such
that even the single new message fails the size check still mutates the
store: the call returns the size-limit error, yet an empty session for the
id has been created with `last_active = now`, it sits in the LRU order and
counts toward `maxSessions` (the stored count becomes
`min (previous + 1) maxSessions`), and — if the store was at capacity — the
LRU head has already been evicted from both the session map and the valid
set. -/
theorem C10_failed_append_mutates {σ : SessionStore} {t : Int}
    (hr : Reachable σ t) (now : Int) (id : String) (role : Role) (text : String)
    (hv : id ∈ σ.validSessions) (hsl : alookup σ.sessions id = none)
    (hsize : σ.maxSessionSizeBytes <
      text.utf8ByteSize + (roleString role).utf8ByteSize + 24) :
    (appendMessage σ now id role text).2 = some .sizeLimit ∧
    alookup (appendMessage σ now id role text).1.sessions id =
      some { messages := [], lastActive := now } ∧
    id ∈ (appendMessage σ now id role text).1.sessionOrder ∧
    (appendMessage σ now id role text).1.sessions.length =
      min (σ.sessions.length + 1) σ.maxSessions ∧
    (σ.sessions.length = σ.maxSessions →
      ∃ ev rest, σ.sessionOrder = ev :: rest ∧
        alookup (appendMessage σ now id role text).1.sessions ev = none ∧
        ev ∉ (appendMessage σ now id role text).1.validSessions) := by
  have hI := reachable_inv hr
  have hfresh := @appendMessage_fresh σ now id role text hv hsl
  have hlim := evictLoop_limits σ.sessionOrder.length σ
  have h1 : ¬ σ.maxMessagesPerSession ≤
      (Session.messages { messages := [], lastActive := now }).length := by
    show ¬ σ.maxMessagesPerSession ≤ ([] : List Message).length
    have := hI.msgMaxPos
    simp only [List.length_nil]
    omega
  have hsz : getSessionSize { messages := [], lastActive := now } = 0 := rfl
  have h1f : ¬ ({ evictLoop σ.sessionOrder.length σ with
      sessions := aupsert (evictLoop σ.sessionOrder.length σ).sessions id
        { messages := [], lastActive := now }
      sessionOrder := (evictLoop σ.sessionOrder.length σ).sessionOrder ++ [id] } :
      SessionStore).maxMessagesPerSession ≤
      (Session.messages { messages := [], lastActive := now }).length := by
    show ¬ (evictLoop σ.sessionOrder.length σ).maxMessagesPerSession ≤ _
    rw [hlim.2.1]
    exact h1
  have h2f : ({ evictLoop σ.sessionOrder.length σ with
      sessions := aupsert (evictLoop σ.sessionOrder.length σ).sessions id
        { messages := [], lastActive := now }
      sessionOrder := (evictLoop σ.sessionOrder.length σ).sessionOrder ++ [id] } :
      SessionStore).maxSessionSizeBytes <
      getSessionSize { messages := [], lastActive := now } + text.utf8ByteSize +
        (roleString role).utf8ByteSize + 24 := by
    show (evictLoop σ.sessionOrder.length σ).maxSessionSizeBytes < _
    rw [hlim.2.2, hsz]
    simpa using hsize
  have hres := @appendChecked_sizeLimit _ _ now id _ _ h1f h2f
  rw [hres] at hfresh
  have hlook : alookup (appendMessage σ now id role text).1.sessions id =
      some { messages := [], lastActive := now } := by
    rw [hfresh]
    exact alookup_aupsert_self _ _ _
  refine ⟨by rw [hfresh], hlook, ?_, ?_, ?_⟩
  · rw [hfresh]
    exact List.mem_append_right _ (List.mem_singleton.mpr rfl)
  · rw [hfresh]
    show (aupsert (evictLoop σ.sessionOrder.length σ).sessions id
      { messages := [], lastActive := now }).length = _
    by_cases hcap : σ.sessions.length = σ.maxSessions
    · have honce := evictLoop_once hI hcap
      have hide : alookup (evictLoop σ.sessionOrder.length σ).sessions id = none := by
        obtain ⟨_, hk', _⟩ := evictLoop_untouched σ.sessionOrder.length σ hv hsl
          (fun hmem => (alookup_eq_none_iff.mp hsl) ((hI.memIff id).mpr hmem))
        exact hk'
      rw [length_aupsert_of_not_mem _ (alookup_eq_none_iff.mp hide)]
      rw [honce]
      obtain ⟨ev, rest, horder⟩ : ∃ ev rest, σ.sessionOrder = ev :: rest := by
        have hp : 1 ≤ σ.sessionOrder.length := by
          rw [← hI.lenEq, hcap]
          exact hI.maxPos
        cases hh : σ.sessionOrder with
        | nil => rw [hh] at hp; simp at hp
        | cons a l => exact ⟨a, l, rfl⟩
      obtain ⟨_, hlene, _, _, _, _, _, _⟩ := evictOldest_cons hI horder
      omega
    · have hlt : σ.sessions.length < σ.maxSessions :=
        lt_of_le_of_ne hI.sizeBound hcap
      have hstop : evictLoop σ.sessionOrder.length σ = σ :=
        evictLoop_stops (Nat.not_le.mpr hlt)
      rw [hstop, length_aupsert_of_not_mem _ (alookup_eq_none_iff.mp hsl)]
      omega
  · intro hcap
    obtain ⟨ev, rest, horder, _, _, hevnone, hevval, _, _⟩ :=
      appendMessage_at_capacity hI now id role text hv hsl hcap
    exact ⟨ev, rest, horder, hevnone, hevval⟩

theorem C10_failed_append_mutates_witness :
    (appendMessage (registerSession (newSessionStore 100 1 10 30) "a")
        0 "a" .user "hello").2 = some .sizeLimit ∧
    alookup (appendMessage (registerSession (newSessionStore 100 1 10 30) "a")
        0 "a" .user "hello").1.sessions "a" =
      some { messages := [], lastActive := 0 } ∧
    "a" ∈ (appendMessage (registerSession (newSessionStore 100 1 10 30) "a")
        0 "a" .user "hello").1.sessionOrder ∧
    (appendMessage (registerSession (newSessionStore 100 1 10 30) "a")
        0 "a" .user "hello").1.sessions.length =
      min ((registerSession (newSessionStore 100 1 10 30) "a").sessions.length + 1)
        (registerSession (newSessionStore 100 1 10 30) "a").maxSessions ∧
    ((registerSession (newSessionStore 100 1 10 30) "a").sessions.length =
        (registerSession (newSessionStore 100 1 10 30) "a").maxSessions →
      ∃ ev rest, (registerSession (newSessionStore 100 1 10 30) "a").sessionOrder =
          ev :: rest ∧
        alookup (appendMessage (registerSession (newSessionStore 100 1 10 30) "a")
          0 "a" .user "hello").1.sessions ev = none ∧
        ev ∉ (appendMessage (registerSession (newSessionStore 100 1 10 30) "a")
          0 "a" .user "hello").1.validSessions) :=
  C10_failed_append_mutates
    (Reachable.register (Reachable.init 100 1 10 30 0 (by decide) (by decide)) "a")
    0 "a" .user "hello" (by decide) (by decide) (by decide)

/-- C6: for a valid session id whose target struct exists — either already
stored (`session` is the stored struct) or freshly materialised by the call
(`session` is the empty struct with `last_active = now`) — `AppendMessage`
returns a limit error iff the session already holds
`maxMessagesPerSession` messages or the estimated size after appending
(stored estimate + text bytes + role-string bytes + 24) exceeds
`maxSessionSizeBytes`; on success exactly that one message is appended with
`last_active` set to `now`, and the id moves to the LRU tail. -/
theorem C6_append_limits {σ : SessionStore} {t : Int} (hr : Reachable σ t)
    (now : Int) (id : String) (role : Role) (text : String) (session : Session)
    (hv : id ∈ σ.validSessions)
    (hsl : alookup σ.sessions id = some session ∨
      (alookup σ.sessions id = none ∧
        session = { messages := [], lastActive := now })) :
    (((appendMessage σ now id role text).2 = some .messageLimit ∨
      (appendMessage σ now id role text).2 = some .sizeLimit) ↔
      (session.messages.length = σ.maxMessagesPerSession ∨
       σ.maxSessionSizeBytes < getSessionSize session + text.utf8ByteSize +
         (roleString role).utf8ByteSize + 24)) ∧
    ((appendMessage σ now id role text).2 = none →
      alookup (appendMessage σ now id role text).1.sessions id =
        some { messages := session.messages ++
                 [{ role := role, text := text, timestamp := now }]
               lastActive := now } ∧
      ∃ pre, (appendMessage σ now id role text).1.sessionOrder = pre ++ [id] ∧
        id ∉ pre) := by
  have hI := reachable_inv hr
  rcases hsl with hsl | ⟨hsl, hsess⟩
  · have heq := @appendMessage_existing σ now id role text session hv hsl
    have hbound := hI.msgBound (id, session) (alookup_mem hsl)
    by_cases h1 : σ.maxMessagesPerSession ≤ session.messages.length
    · rw [heq, appendChecked_msgLimit h1]
      refine ⟨⟨fun _ => Or.inl (Nat.le_antisymm hbound h1), fun _ => Or.inl rfl⟩,
        fun hnone => by simp at hnone⟩
    · by_cases h2 : σ.maxSessionSizeBytes <
          getSessionSize session + text.utf8ByteSize + (roleString role).utf8ByteSize + 24
      · rw [heq, appendChecked_sizeLimit h1 h2]
        refine ⟨⟨fun _ => Or.inr h2, fun _ => Or.inr rfl⟩,
          fun hnone => by simp at hnone⟩
      · rw [heq, appendChecked_success h1 h2]
        refine ⟨⟨?_, ?_⟩, fun _ => ⟨?_, ?_⟩⟩
        · intro hc
          rcases hc with hc | hc <;> simp at hc
        · intro hc
          rcases hc with hc | hc
          · exact absurd (Nat.le_of_eq hc.symm) h1
          · exact absurd hc h2
        · exact alookup_aupsert_self σ.sessions id _
        · refine ⟨σ.sessionOrder.erase id, rfl, ?_⟩
          intro hmem
          exact ((List.Nodup.mem_erase_iff hI.orderNodup).mp hmem).1 rfl
  · subst hsess
    have hfresh := @appendMessage_fresh σ now id role text hv hsl
    have hlim := evictLoop_limits σ.sessionOrder.length σ
    have hnotord : id ∉ σ.sessionOrder :=
      fun hmem => (alookup_eq_none_iff.mp hsl) ((hI.memIff id).mpr hmem)
    have h1f : ¬ ({ evictLoop σ.sessionOrder.length σ with
        sessions := aupsert (evictLoop σ.sessionOrder.length σ).sessions id
          { messages := [], lastActive := now }
        sessionOrder := (evictLoop σ.sessionOrder.length σ).sessionOrder ++ [id] } :
        SessionStore).maxMessagesPerSession ≤
        (Session.messages { messages := [], lastActive := now }).length := by
      show ¬ (evictLoop σ.sessionOrder.length σ).maxMessagesPerSession ≤
        ([] : List Message).length
      rw [hlim.2.1]
      have := hI.msgMaxPos
      simp only [List.length_nil]
      omega
    by_cases h2 : σ.maxSessionSizeBytes <
        getSessionSize { messages := [], lastActive := now } + text.utf8ByteSize +
          (roleString role).utf8ByteSize + 24
    · have h2f : ({ evictLoop σ.sessionOrder.length σ with
          sessions := aupsert (evictLoop σ.sessionOrder.length σ).sessions id
            { messages := [], lastActive := now }
          sessionOrder := (evictLoop σ.sessionOrder.length σ).sessionOrder ++ [id] } :
          SessionStore).maxSessionSizeBytes <
          getSessionSize { messages := [], lastActive := now } + text.utf8ByteSize +
            (roleString role).utf8ByteSize + 24 := by
        show (evictLoop σ.sessionOrder.length σ).maxSessionSizeBytes < _
        rw [hlim.2.2]
        exact h2
      rw [hfresh, appendChecked_sizeLimit h1f h2f]
      refine ⟨⟨fun _ => Or.inr h2, fun _ => Or.inr rfl⟩,
        fun hnone => by simp at hnone⟩
    · have h2f : ¬ ({ evictLoop σ.sessionOrder.length σ with
          sessions := aupsert (evictLoop σ.sessionOrder.length σ).sessions id
            { messages := [], lastActive := now }
          sessionOrder := (evictLoop σ.sessionOrder.length σ).sessionOrder ++ [id] } :
          SessionStore).maxSessionSizeBytes <
          getSessionSize { messages := [], lastActive := now } + text.utf8ByteSize +
            (roleString role).utf8ByteSize + 24 := by
        show ¬ (evictLoop σ.sessionOrder.length σ).maxSessionSizeBytes < _
        rw [hlim.2.2]
        exact h2
      rw [hfresh, appendChecked_success h1f h2f]
      obtain ⟨hIe, _, _⟩ := evictLoop_inv hI
      obtain ⟨_, _, ho2⟩ := evictLoop_untouched σ.sessionOrder.length σ hv hsl hnotord
      refine ⟨⟨?_, ?_⟩, fun _ => ⟨?_, ?_⟩⟩
      · intro hc
        rcases hc with hc | hc <;> simp at hc
      · intro hc
        rcases hc with hc | hc
        · have hc0 : (0 : Nat) = σ.maxMessagesPerSession := hc
          have := hI.msgMaxPos
          omega
        · exact absurd hc h2
      · exact alookup_aupsert_self _ _ _
      · refine ⟨((evictLoop σ.sessionOrder.length σ).sessionOrder ++ [id]).erase id,
          rfl, ?_⟩
        intro hmem
        have hnd : ((evictLoop σ.sessionOrder.length σ).sessionOrder ++ [id]).Nodup := by
          rw [List.nodup_append]
          refine ⟨hIe.orderNodup, List.nodup_singleton id, ?_⟩
          intro a ha hb
          rw [List.mem_singleton] at hb
          subst hb
          exact ho2 ha
        exact ((List.Nodup.mem_erase_iff hnd).mp hmem).1 rfl

theorem C6_append_limits_witness :
    ((((appendMessage ((appendMessage (registerSession
          (newSessionStore 0 2 5 100) "a") 0 "a" .user "x").1)
          1 "a" .assistant "y").2 = some .messageLimit ∨
       (appendMessage ((appendMessage (registerSession
          (newSessionStore 0 2 5 100) "a") 0 "a" .user "x").1)
          1 "a" .assistant "y").2 = some .sizeLimit) ↔
      ((Session.messages { messages := [{ role := .user, text := "x", timestamp := 0 }],
                           lastActive := 0 }).length =
        ((appendMessage (registerSession
          (newSessionStore 0 2 5 100) "a") 0 "a" .user "x").1).maxMessagesPerSession ∨
       ((appendMessage (registerSession
          (newSessionStore 0 2 5 100) "a") 0 "a" .user "x").1).maxSessionSizeBytes <
        getSessionSize { messages := [{ role := .user, text := "x", timestamp := 0 }],
                         lastActive := 0 } + ("y" : String).utf8ByteSize +
          (roleString .assistant).utf8ByteSize + 24)) ∧
    ((appendMessage ((appendMessage (registerSession
          (newSessionStore 0 2 5 100) "a") 0 "a" .user "x").1)
          1 "a" .assistant "y").2 = none →
      alookup (appendMessage ((appendMessage (registerSession
          (newSessionStore 0 2 5 100) "a") 0 "a" .user "x").1)
          1 "a" .assistant "y").1.sessions "a" =
        some { messages := (Session.messages
                 { messages := [{ role := .user, text := "x", timestamp := 0 }],
                   lastActive := 0 }) ++
                 [{ role := .assistant, text := "y", timestamp := 1 }],
               lastActive := 1 } ∧
      ∃ pre, (appendMessage ((appendMessage (registerSession
          (newSessionStore 0 2 5 100) "a") 0 "a" .user "x").1)
          1 "a" .assistant "y").1.sessionOrder = pre ++ ["a"] ∧
        "a" ∉ pre)) :=
  C6_append_limits
    (Reachable.append (Reachable.register
      (Reachable.init 0 2 5 100 0 (by decide) (by decide)) "a")
      (by decide) "a" .user "x")
    1 "a" .assistant "y"
    { messages := [{ role := .user, text := "x", timestamp := 0 }], lastActive := 0 }
    (by decide) (Or.inl (by decide))

/-- C2: a `Chat` call that returns success has appended exactly two messages
to the referenced session — first `(user, request.message)` at the first
clock reading, then `(assistant, reply)` at the second — and the returned
`message_count` equals the session's message count immediately after the
call (the value a subsequent `GetHistory` with no intervening mutations
observes, whatever timestamp rendering it uses), which is the count read at
the start of the call plus two.  The side condition keeps the `uint32`
truncation of the Go counter out of range. -/
theorem C2_chat_success {uuidParse : String → Bool} {σ σ2 : SessionStore}
    {req : ChatRequest} {t1 t2 : Int}
    {gen : List LLMMessage → Except GoErr String} {maxResponseSize : Nat}
    {resp : ChatResponse}
    (h : chat uuidParse σ req t1 t2 gen maxResponseSize = (σ2, .ok resp))
    (hlen : (getMessages σ req.sessionId).length + 2 < 4294967296) :
    getMessages σ2 req.sessionId =
      getMessages σ req.sessionId ++
        [{ role := .user, text := req.message, timestamp := t1 },
         { role := .assistant, text := resp.reply, timestamp := t2 }] ∧
    resp.messageCount = (getMessages σ2 req.sessionId).length ∧
    resp.messageCount = (getMessages σ req.sessionId).length + 2 ∧
    (∀ fmt, (getFormattedMessages fmt σ2 req.sessionId).length = resp.messageCount) := by
  unfold chat at h
  by_cases h1 : req.sessionId = ""
  · rw [if_pos h1] at h
    simp at h
  rw [if_neg h1] at h
  by_cases h2 : uuidParse req.sessionId = true
  case neg =>
    rw [if_pos (by simp [h2])] at h
    simp at h
  rw [if_neg (by simp [h2])] at h
  by_cases h3 : req.message = ""
  · rw [if_pos h3] at h
    simp at h
  rw [if_neg h3] at h
  by_cases h4 : 10240 < req.message.utf8ByteSize
  · rw [if_pos h4] at h
    simp at h
  rw [if_neg h4] at h
  by_cases h5 : req.sessionId ∈ σ.validSessions
  case neg =>
    rw [if_pos (by simp [isValidSession, h5])] at h
    simp at h
  rw [if_neg (by simp [isValidSession, h5])] at h
  dsimp only at h
  rcases happ : appendMessage σ t1 req.sessionId .user req.message with ⟨σ1, oe⟩
  rw [happ] at h
  cases oe with
  | some e =>
    dsimp only at h
    simp at h
  | none =>
    dsimp only at h
    rcases hgen : gen (getMessagesAsLLMFormat σ1 req.sessionId) with e | reply
    · rw [hgen] at h
      dsimp only at h
      simp at h
    · rw [hgen] at h
      dsimp only at h
      by_cases hsize : maxResponseSize < reply.utf8ByteSize
      · rw [if_pos hsize] at h
        simp at h
      · rw [if_neg hsize] at h
        rcases happ2 : appendMessage σ1 t2 req.sessionId .assistant
            (sanitizeString reply) with ⟨σ3, oe2⟩
        rw [happ2] at h
        cases oe2 with
        | some e2 =>
          dsimp only at h
          simp at h
        | none =>
          dsimp only at h
          injection h with hfst hsnd
          subst hfst
          injection hsnd with hresp
          subst hresp
          have hu : getMessages σ1 req.sessionId =
              getMessages σ req.sessionId ++
                [{ role := .user, text := req.message, timestamp := t1 }] :=
            appendMessage_ok happ
          have ha : getMessages σ3 req.sessionId =
              getMessages σ1 req.sessionId ++
                [{ role := .assistant, text := sanitizeString reply,
                   timestamp := t2 }] :=
            appendMessage_ok happ2
          have hmsgs : getMessages σ3 req.sessionId =
              getMessages σ req.sessionId ++
                [{ role := .user, text := req.message, timestamp := t1 },
                 { role := .assistant, text := sanitizeString reply,
                   timestamp := t2 }] := by
            rw [ha, hu, List.append_assoc]
            rfl
          have hcnt : u32 (u32 (getMessages σ req.sessionId).length + 2) =
              (getMessages σ req.sessionId).length + 2 := by
            simp only [u32]
            omega
          refine ⟨hmsgs, ?_, ?_, ?_⟩
          · show u32 (u32 (getMessages σ req.sessionId).length + 2) = _
            rw [hcnt, hmsgs]
            simp
          · show u32 (u32 (getMessages σ req.sessionId).length + 2) = _
            rw [hcnt]
          · intro fmt
            show (getFormattedMessages fmt σ3 req.sessionId).length =
              u32 (u32 (getMessages σ req.sessionId).length + 2)
            rw [hcnt]
            unfold getFormattedMessages
            rw [List.length_map, hmsgs]
            simp

theorem C2_chat_success_witness :
    chat (fun _ => true) (registerSession (newSessionStore 1000 10 10 1000) "s")
      { sessionId := "s", message := "hi", messageIndex := 0 } 0 1
      (fun _ => .ok "ok") 51200 =
      ((chat (fun _ => true) (registerSession (newSessionStore 1000 10 10 1000) "s")
          { sessionId := "s", message := "hi", messageIndex := 0 } 0 1
          (fun _ => .ok "ok") 51200).1,
       .ok { sessionId := "s", reply := "ok", messageCount := 2 }) ∧
    (getMessages (registerSession (newSessionStore 1000 10 10 1000) "s")
        "s").length + 2 < 4294967296 ∧
    (getMessages (chat (fun _ => true)
        (registerSession (newSessionStore 1000 10 10 1000) "s")
        { sessionId := "s", message := "hi", messageIndex := 0 } 0 1
        (fun _ => .ok "ok") 51200).1 "s" =
      getMessages (registerSession (newSessionStore 1000 10 10 1000) "s") "s" ++
        [{ role := .user, text := "hi", timestamp := 0 },
         { role := .assistant, text := "ok", timestamp := 1 }] ∧
    (2 : Nat) = (getMessages (chat (fun _ => true)
        (registerSession (newSessionStore 1000 10 10 1000) "s")
        { sessionId := "s", message := "hi", messageIndex := 0 } 0 1
        (fun _ => .ok "ok") 51200).1 "s").length ∧
    (2 : Nat) = (getMessages (registerSession (newSessionStore 1000 10 10 1000) "s")
        "s").length + 2 ∧
    (∀ fmt, (getFormattedMessages fmt (chat (fun _ => true)
        (registerSession (newSessionStore 1000 10 10 1000) "s")
        { sessionId := "s", message := "hi", messageIndex := 0 } 0 1
        (fun _ => .ok "ok") 51200).1 "s").length = (2 : Nat))) :=
  ⟨by decide, by decide,
   @C2_chat_success (fun _ => true)
     (registerSession (newSessionStore 1000 10 10 1000) "s")
     (chat (fun _ => true) (registerSession (newSessionStore 1000 10 10 1000) "s")
       { sessionId := "s", message := "hi", messageIndex := 0 } 0 1
       (fun _ => .ok "ok") 51200).1
     { sessionId := "s", message := "hi", messageIndex := 0 } 0 1
     (fun _ => .ok "ok") 51200
     { sessionId := "s", reply := "ok", messageCount := 2 }
     (by decide) (by decide)⟩

end Microchat
